import Mathlib

set_option maxRecDepth 100000
set_option linter.unnecessarySimpa false

/-!
Verification of the smilet quiz application.

This file gives a shallow embedding of the core logic of the repository:

* the serverless quiz-generation handler's response normalization and
  schema validation (`netlify/functions/generate-quiz.js`),
* the client-side generation with its one-shot simplified-prompt retry
  (`generateQuizQuestions` in `App.tsx`),
* the topic-specific prompt instruction lookup
  (`getTopicSpecificInstructions`),
* the quiz play state machine (`QuizGame` / `handleAnswerSelect`),
* the results aggregation (`ResultsPage`),
* hint generation with its fallback (`generateHint` and the hint handler).

JavaScript values produced by `JSON.parse` are modelled by the inductive
type `Json` below; JSON numbers are modelled as rationals so that
non-integer numbers are representable, and object field access follows
the last-key-wins rule of duplicate keys.
-/

/-- A parsed JSON value (the result of a successful `JSON.parse`). -/
inductive Json where
  | null
  | bool (b : Bool)
  | num (q : Rat)
  | str (s : String)
  | arr (elems : List Json)
  | obj (fields : List (String × Json))
  deriving Repr, Inhabited

/-- Property access `v[k]` on a parsed JSON value: only objects have
fields; for duplicate keys the later one wins (as in JavaScript). -/
def Json.getField : Json → String → Option Json
  | Json.obj fields, k => (fields.reverse.find? (fun p => p.1 == k)).map (fun p => p.2)
  | _, _ => none

/-- JavaScript truthiness of a parsed JSON value. -/
def Json.truthy : Json → Bool
  | Json.null => false
  | Json.bool b => b
  | Json.num q => !(q == 0)
  | Json.str s => !(s == "")
  | Json.arr _ => true
  | Json.obj _ => true

/-- JavaScript truthiness of a possibly-missing field (`undefined` is falsy). -/
def jsTruthy : Option Json → Bool
  | none => false
  | some v => v.truthy

/-- Per-question validation from the `generate-quiz.js` handler:
`!q.question || !Array.isArray(q.options) || q.options.length !== 4`
throws "Invalid question structure at index i", then
`typeof q.correctAnswer !== "number" || q.correctAnswer < 0 || q.correctAnswer > 3`
throws "Invalid correctAnswer at index i". -/
def validateQuestionAt (q : Json) (idx : Nat) : Except String Unit :=
  if !(jsTruthy (q.getField "question")) then
    Except.error ("Invalid question structure at index " ++ toString idx)
  else
    match q.getField "options" with
    | some (Json.arr os) =>
      if os.length != 4 then
        Except.error ("Invalid question structure at index " ++ toString idx)
      else
        match q.getField "correctAnswer" with
        | some (Json.num x) =>
          if x < 0 ∨ x > 3 then
            Except.error ("Invalid correctAnswer at index " ++ toString idx)
          else Except.ok ()
        | _ => Except.error ("Invalid correctAnswer at index " ++ toString idx)
    | _ => Except.error ("Invalid question structure at index " ++ toString idx)

/-- The handler's `quizData.questions.forEach((q, index) => ...)` loop,
stopping at the first validation failure. -/
def validateQuestionList : List Json → Nat → Except String Unit
  | [], _ => Except.ok ()
  | q :: rest, idx =>
    match validateQuestionAt q idx with
    | Except.ok _ => validateQuestionList rest (idx + 1)
    | Except.error e => Except.error e

/-- Structure validation from the handler:
`if (!quizData.questions || !Array.isArray(quizData.questions)) throw ...`,
then the per-question loop.  An array is always truthy, so the guard fails
exactly when the `questions` field is not an array. -/
def validateQuizStructure (j : Json) : Except String Unit :=
  match j.getField "questions" with
  | some (Json.arr qs) => validateQuestionList qs 0
  | _ => Except.error "Invalid response structure: missing questions array"

/-- The properties the handler's validation actually enforces on one
question object. -/
def questionOk (q : Json) : Prop :=
  jsTruthy (q.getField "question") = true ∧
  (∃ os, q.getField "options" = some (Json.arr os) ∧ os.length = 4) ∧
  (∃ x, q.getField "correctAnswer" = some (Json.num x) ∧ 0 ≤ x ∧ x ≤ 3)

theorem validateQuestionAt_ok_iff (q : Json) (idx : Nat) :
    validateQuestionAt q idx = Except.ok () ↔ questionOk q := by
  unfold validateQuestionAt questionOk
  constructor
  · intro h
    by_cases ht : jsTruthy (q.getField "question") = true
    · refine ⟨ht, ?_⟩
      simp only [ht, Bool.not_true, Bool.false_eq_true, if_false] at h
      cases hop : q.getField "options" with
      | none => rw [hop] at h; exact absurd h (by simp)
      | some v =>
        cases v with
        | arr os =>
          rw [hop] at h
          by_cases hlen : os.length = 4
          · simp only [hlen] at h ⊢
            refine ⟨⟨os, rfl, hlen⟩, ?_⟩
            cases hca : q.getField "correctAnswer" with
            | none => simp [hca] at h
            | some w =>
              cases w with
              | num x =>
                rw [hca] at h
                by_cases hx : x < 0 ∨ x > 3
                · simp [hx] at h
                · push_neg at hx
                  exact ⟨x, rfl, hx.1, hx.2⟩
              | null => simp [hca] at h
              | bool b => simp [hca] at h
              | str s => simp [hca] at h
              | arr a => simp [hca] at h
              | obj o => simp [hca] at h
          · have : os.length != 4 := by simpa using hlen
            simp [this] at h
        | null => rw [hop] at h; exact absurd h (by simp)
        | bool b => rw [hop] at h; exact absurd h (by simp)
        | num x => rw [hop] at h; exact absurd h (by simp)
        | str s => rw [hop] at h; exact absurd h (by simp)
        | obj o => rw [hop] at h; exact absurd h (by simp)
    · have ht' : jsTruthy (q.getField "question") = false := by
        cases hv : jsTruthy (q.getField "question")
        · rfl
        · exact absurd hv ht
      simp [ht'] at h
  · rintro ⟨ht, ⟨os, hop, hlen⟩, ⟨x, hca, hx0, hx3⟩⟩
    have hx : ¬ (x < 0 ∨ x > 3) := by
      push_neg; exact ⟨hx0, hx3⟩
    simp [ht, hop, hlen, hca, hx]

theorem validateQuestionList_ok_iff (qs : List Json) (idx : Nat) :
    validateQuestionList qs idx = Except.ok () ↔ ∀ q ∈ qs, questionOk q := by
  induction qs generalizing idx with
  | nil => simp [validateQuestionList]
  | cons q rest ih =>
    unfold validateQuestionList
    constructor
    · intro h
      cases hq : validateQuestionAt q idx with
      | ok u =>
        rw [hq] at h
        intro p hp
        rcases List.mem_cons.mp hp with h1 | h2
        · subst h1
          exact (validateQuestionAt_ok_iff p idx).mp (by cases u; exact hq)
        · exact ((ih (idx + 1)).mp h) p h2
      | error e => rw [hq] at h; exact absurd h (by simp)
    · intro h
      have hq : validateQuestionAt q idx = Except.ok () :=
        (validateQuestionAt_ok_iff q idx).mpr (h q (List.mem_cons_self q rest))
      rw [hq]
      exact (ih (idx + 1)).mpr (fun p hp => h p (List.mem_cons_of_mem q hp))

/-- A question object that passes the handler's validation. -/
def sampleQuestion : Json :=
  Json.obj [("question", Json.str "What is unit testing?"),
            ("options", Json.arr [Json.str "A", Json.str "B", Json.str "C", Json.str "D"]),
            ("correctAnswer", Json.num 0),
            ("explanation", Json.str "Because.")]

/-- A quiz payload with only three questions. -/
def threeQuestionPayload : Json :=
  Json.obj [("questions", Json.arr [sampleQuestion, sampleQuestion, sampleQuestion]),
            ("topic", Json.str "Software Testing"),
            ("difficulty", Json.str "medium")]

/-- Claim C1, counterexample: the handler's validation accepts a response
with three questions even though the request asked for `numQuestions = 5`
(the question count is never compared to `numQuestions`), so a response
that does not have exactly `numQuestions` questions does not cause the
generation call to fail. -/
theorem claim_c1_counterexample :
    validateQuizStructure threeQuestionPayload = Except.ok () ∧
      ∀ qs, threeQuestionPayload.getField "questions" = some (Json.arr qs) →
        qs.length = 3 ∧ qs.length ≠ 5 := by
  refine ⟨rfl, ?_⟩
  intro qs h
  have hg : threeQuestionPayload.getField "questions"
      = some (Json.arr [sampleQuestion, sampleQuestion, sampleQuestion]) := rfl
  rw [hg] at h
  have h2 := Json.arr.inj (Option.some.inj h)
  rw [← h2]
  exact ⟨rfl, by decide⟩

/-- Claim C1 (amended): the handler's validation accepts a response exactly
when its `questions` field is an array all of whose elements have a truthy
`question` field, an `options` array of exactly 4 entries, and a numeric
`correctAnswer` in [0,3]; the number of questions is not checked against
`numQuestions`. -/
theorem claim_c1_theorem (j : Json) :
    validateQuizStructure j = Except.ok () ↔
      ∃ qs, j.getField "questions" = some (Json.arr qs) ∧ ∀ q ∈ qs, questionOk q := by
  unfold validateQuizStructure
  cases hq : j.getField "questions" with
  | none =>
    simp only [hq]
    constructor
    · intro h; exact absurd h (by simp)
    · rintro ⟨qs, hqs, _⟩; exact absurd hqs (by simp)
  | some v =>
    cases v with
    | arr qs =>
      simp only [hq]
      constructor
      · intro h
        exact ⟨qs, rfl, (validateQuestionList_ok_iff qs 0).mp h⟩
      · rintro ⟨qs2, hqs2, hall⟩
        have : qs2 = qs := (Json.arr.inj (Option.some.inj hqs2)).symm
        subst this
        exact (validateQuestionList_ok_iff qs2 0).mpr hall
    | null =>
      simp only [hq]
      constructor
      · intro h; exact absurd h (by simp)
      · rintro ⟨qs, hqs, _⟩; exact absurd (Option.some.inj hqs) (by simp)
    | bool b =>
      simp only [hq]
      constructor
      · intro h; exact absurd h (by simp)
      · rintro ⟨qs, hqs, _⟩; exact absurd (Option.some.inj hqs) (by simp)
    | num x =>
      simp only [hq]
      constructor
      · intro h; exact absurd h (by simp)
      · rintro ⟨qs, hqs, _⟩; exact absurd (Option.some.inj hqs) (by simp)
    | str s =>
      simp only [hq]
      constructor
      · intro h; exact absurd h (by simp)
      · rintro ⟨qs, hqs, _⟩; exact absurd (Option.some.inj hqs) (by simp)
    | obj o =>
      simp only [hq]
      constructor
      · intro h; exact absurd h (by simp)
      · rintro ⟨qs, hqs, _⟩; exact absurd (Option.some.inj hqs) (by simp)

/-- Witness for C1's amended theorem at a concrete accepted payload. -/
theorem claim_c1_witness :
    ∃ qs, threeQuestionPayload.getField "questions" = some (Json.arr qs) ∧
      ∀ q ∈ qs, questionOk q :=
  (claim_c1_theorem threeQuestionPayload).mp rfl

/-- Claim C7: a payload whose `questions` field is missing or not an array
always fails validation with the schema error, and in particular never
succeeds (with an empty quiz set or otherwise). -/
theorem claim_c7_theorem (j : Json)
    (h : ∀ qs, j.getField "questions" ≠ some (Json.arr qs)) :
    validateQuizStructure j
        = Except.error "Invalid response structure: missing questions array" ∧
      ∀ u, validateQuizStructure j ≠ Except.ok u := by
  unfold validateQuizStructure
  cases hq : j.getField "questions" with
  | none => exact ⟨rfl, by simp⟩
  | some v =>
    cases v with
    | arr qs => exact absurd hq (h qs)
    | null => exact ⟨rfl, by simp⟩
    | bool b => exact ⟨rfl, by simp⟩
    | num x => exact ⟨rfl, by simp⟩
    | str s => exact ⟨rfl, by simp⟩
    | obj o => exact ⟨rfl, by simp⟩

/-- Witness for C7 at a concrete payload with no `questions` field. -/
theorem claim_c7_witness :
    validateQuizStructure (Json.obj [("topic", Json.str "x")])
        = Except.error "Invalid response structure: missing questions array" ∧
      ∀ u, validateQuizStructure (Json.obj [("topic", Json.str "x")]) ≠ Except.ok u :=
  claim_c7_theorem (Json.obj [("topic", Json.str "x")])
    (by
      intro qs hq
      rw [show (Json.obj [("topic", Json.str "x")]).getField "questions" = none from rfl] at hq
      exact Option.noConfusion hq)

/-! ## Response text extraction (`generate-quiz.js` lines 115-141 and the
identical client-side cleanup in `generateQuizQuestions`)

The raw model text is trimmed, markdown code fences are stripped, smart
quotes are replaced, blank lines are collapsed, trailing commas before a
closing brace/bracket are removed, and finally the text is sliced between
the first `{` and the last `}`.  Strings are modelled as `List Char`; the
regex replacements are modelled by left-to-right scanners with the same
greedy semantics. -/

/-- Whitespace in the sense of the regexes' `\s` and `String.trim`
(ASCII whitespace). -/
def isWsChar (c : Char) : Bool :=
  c = ' ' || c = '\t' || c = '\n' || c = '\r' || c = '\x0b' || c = '\x0c'

/-- `String.prototype.trim()`. -/
def trimChars (l : List Char) : List Char :=
  ((l.dropWhile isWsChar).reverse.dropWhile isWsChar).reverse

/-- One step of `replace(/[“”]/g, '"')` and
`replace(/[‘’]/g, "'")`: both are character-wise. -/
def fixQuote (c : Char) : Char :=
  if c = '“' ∨ c = '”' then '"'
  else if c = '‘' ∨ c = '’' then '\''
  else c

/-- Helper for the greedy match of `\n\s*\n`: given the text after a
leading newline, the number of characters the rest of the match consumes
(through the last newline of the maximal whitespace run), or 0 when the
run contains no further newline and the match fails. -/
def lastNlPos : List Char → Nat
  | [] => 0
  | c :: rest =>
    let r := lastNlPos rest
    if r = 0 then (if c = '\n' then 1 else 0) else r + 1

/-- Characters consumed after the leading `\n` of a `\n\s*\n` match. -/
def blankRun (l : List Char) : Nat :=
  lastNlPos (l.takeWhile isWsChar)

/-- Fuel-indexed scanner for `replace(/\n\s*\n/g, "\n")`; the fuel only
serves structural recursion and is irrelevant once it bounds the input
length. -/
def collapseBlankF : Nat → List Char → List Char
  | 0, l => l
  | fuel + 1, l =>
    match l with
    | [] => []
    | c :: rest =>
      if c = '\n' then
        if blankRun rest = 0 then '\n' :: collapseBlankF fuel rest
        else '\n' :: collapseBlankF fuel (rest.drop (blankRun rest))
      else c :: collapseBlankF fuel rest

/-- `replace(/\n\s*\n/g, "\n")`: global left-to-right replacement with a
greedy `\s*`. -/
def collapseBlank (l : List Char) : List Char := collapseBlankF l.length l

theorem collapseBlankF_congr :
    ∀ (fuel1 fuel2 : Nat) (l : List Char), l.length ≤ fuel1 → l.length ≤ fuel2 →
      collapseBlankF fuel1 l = collapseBlankF fuel2 l := by
  intro fuel1
  induction fuel1 with
  | zero =>
    intro fuel2 l h1 h2
    have : l = [] := List.length_eq_zero.mp (Nat.le_zero.mp h1)
    subst this
    cases fuel2 <;> rfl
  | succ f1 ih =>
    intro fuel2 l h1 h2
    cases l with
    | nil => cases fuel2 <;> rfl
    | cons c rest =>
      cases fuel2 with
      | zero => exact absurd h2 (by simp)
      | succ f2 =>
        simp only [collapseBlankF]
        have hr : rest.length ≤ f1 := by simpa using h1
        have hr2 : rest.length ≤ f2 := by simpa using h2
        have hd : (rest.drop (blankRun rest)).length ≤ f1 :=
          le_trans (by simp) hr
        have hd2 : (rest.drop (blankRun rest)).length ≤ f2 :=
          le_trans (by simp) hr2
        rw [ih f2 rest hr hr2, ih f2 (rest.drop (blankRun rest)) hd hd2]

theorem collapseBlank_cons (c : Char) (rest : List Char) :
    collapseBlank (c :: rest) =
      if c = '\n' then
        if blankRun rest = 0 then '\n' :: collapseBlank rest
        else '\n' :: collapseBlank (rest.drop (blankRun rest))
      else c :: collapseBlank rest := by
  show collapseBlankF (rest.length + 1) (c :: rest) = _
  simp only [collapseBlankF, collapseBlank]
  rw [collapseBlankF_congr rest.length (rest.drop (blankRun rest)).length
    (rest.drop (blankRun rest)) (by simp) le_rfl]

/-- Fuel-indexed scanner for `replace(/,(\s*[}\]])/g, "$1")`. -/
def removeCommasF : Nat → List Char → List Char
  | 0, l => l
  | fuel + 1, l =>
    match l with
    | [] => []
    | c :: rest =>
      if c = ',' then
        match (rest.drop (rest.takeWhile isWsChar).length).head? with
        | some b =>
          if b = '}' ∨ b = ']' then
            rest.takeWhile isWsChar ++
              b :: removeCommasF fuel (rest.drop (rest.takeWhile isWsChar).length).tail
          else ',' :: removeCommasF fuel rest
        | none => ',' :: removeCommasF fuel rest
      else c :: removeCommasF fuel rest

/-- `replace(/,(\s*[}\]])/g, "$1")`: global left-to-right removal of a
comma that is followed by optional whitespace and a closing brace or
bracket; the whitespace and the bracket (the `$1` group) are kept. -/
def removeCommas (l : List Char) : List Char := removeCommasF l.length l

theorem removeCommasF_congr :
    ∀ (fuel1 fuel2 : Nat) (l : List Char), l.length ≤ fuel1 → l.length ≤ fuel2 →
      removeCommasF fuel1 l = removeCommasF fuel2 l := by
  intro fuel1
  induction fuel1 with
  | zero =>
    intro fuel2 l h1 h2
    have : l = [] := List.length_eq_zero.mp (Nat.le_zero.mp h1)
    subst this
    cases fuel2 <;> rfl
  | succ f1 ih =>
    intro fuel2 l h1 h2
    cases l with
    | nil => cases fuel2 <;> rfl
    | cons c rest =>
      cases fuel2 with
      | zero => exact absurd h2 (by simp)
      | succ f2 =>
        simp only [removeCommasF]
        have hr : rest.length ≤ f1 := by simpa using h1
        have hr2 : rest.length ≤ f2 := by simpa using h2
        have hlen : (rest.drop (rest.takeWhile isWsChar).length).tail.length ≤ rest.length := by
          simp only [List.length_tail, List.length_drop]
          omega
        rw [ih f2 rest hr hr2,
          ih f2 (rest.drop (rest.takeWhile isWsChar).length).tail
            (le_trans hlen hr) (le_trans hlen hr2)]

theorem removeCommas_cons (c : Char) (rest : List Char) :
    removeCommas (c :: rest) =
      if c = ',' then
        match (rest.drop (rest.takeWhile isWsChar).length).head? with
        | some b =>
          if b = '}' ∨ b = ']' then
            rest.takeWhile isWsChar ++
              b :: removeCommas (rest.drop (rest.takeWhile isWsChar).length).tail
          else ',' :: removeCommas rest
        | none => ',' :: removeCommas rest
      else c :: removeCommas rest := by
  show removeCommasF (rest.length + 1) (c :: rest) = _
  simp only [removeCommasF, removeCommas]
  have hlen : (rest.drop (rest.takeWhile isWsChar).length).tail.length ≤ rest.length := by
    simp only [List.length_tail, List.length_drop]
    omega
  rw [removeCommasF_congr rest.length (rest.drop (rest.takeWhile isWsChar).length).tail.length
    (rest.drop (rest.takeWhile isWsChar).length).tail hlen le_rfl]

/-- Strip of the trailing fence: `replace(/\s*```$/, "")` removes a final
"```" together with the whitespace run before it, when present. -/
def stripTrailFence (l : List Char) : List Char :=
  if ("```".toList).isPrefixOf l.reverse then
    ((l.reverse.drop 3).dropWhile isWsChar).reverse
  else l

/-- Markdown fence removal:
`if startsWith("```json") replace(/^```json\s*/,"").replace(/\s*```$/,"")`,
`else if startsWith("```") replace(/^```\s*/,"").replace(/\s*```$/,"")`. -/
def stripFence (l : List Char) : List Char :=
  if ("```json".toList).isPrefixOf l then
    stripTrailFence ((l.drop 7).dropWhile isWsChar)
  else if ("```".toList).isPrefixOf l then
    stripTrailFence ((l.drop 3).dropWhile isWsChar)
  else l

/-- `jsonText.indexOf("{")`, `jsonText.lastIndexOf("}")`, and the slice
`substring(jsonStart, jsonEnd + 1)` guarded by
`jsonStart !== -1 && jsonEnd !== -1 && jsonEnd > jsonStart`. -/
def sliceBraces (l : List Char) : List Char :=
  match l.findIdx? (fun c => c == '{'), l.reverse.findIdx? (fun c => c == '}') with
  | some i, some jr =>
    let j := l.length - 1 - jr
    if i < j then (l.drop i).take (j - i + 1) else l
  | _, _ => l

/-- The complete extraction pipeline applied to raw model text before
`JSON.parse`: trim, strip fences, replace smart quotes, collapse blank
lines, drop trailing commas, trim, slice between the outermost braces. -/
def extractJson (raw : List Char) : List Char :=
  sliceBraces (trimChars (removeCommas (collapseBlank
    ((stripFence (trimChars raw)).map fixQuote))))

/-! ## A model of `JSON.parse`

A fuel-indexed recursive-descent parser for JSON, producing the `Json`
values above.  It is used to run the normalization pipeline end-to-end on
concrete provider responses. -/

/-- JSON structural whitespace. -/
def isJsonWs (c : Char) : Bool :=
  c = ' ' || c = '\t' || c = '\n' || c = '\r'

def skipWs (l : List Char) : List Char := l.dropWhile isJsonWs

def hexVal (c : Char) : Option Nat :=
  if '0' ≤ c ∧ c ≤ '9' then some (c.toNat - '0'.toNat)
  else if 'a' ≤ c ∧ c ≤ 'f' then some (c.toNat - 'a'.toNat + 10)
  else if 'A' ≤ c ∧ c ≤ 'F' then some (c.toNat - 'A'.toNat + 10)
  else none

/-- Body of a JSON string literal after the opening quote; returns the
characters and the remaining input after the closing quote. -/
def parseStringBody : Nat → List Char → Option (List Char × List Char)
  | 0, _ => none
  | fuel + 1, l =>
    match l with
    | '"' :: rest => some ([], rest)
    | '\\' :: e :: rest =>
      match e with
      | '"' => (parseStringBody fuel rest).map (fun p => ('"' :: p.1, p.2))
      | '\\' => (parseStringBody fuel rest).map (fun p => ('\\' :: p.1, p.2))
      | '/' => (parseStringBody fuel rest).map (fun p => ('/' :: p.1, p.2))
      | 'b' => (parseStringBody fuel rest).map (fun p => ('\x08' :: p.1, p.2))
      | 'f' => (parseStringBody fuel rest).map (fun p => ('\x0c' :: p.1, p.2))
      | 'n' => (parseStringBody fuel rest).map (fun p => ('\n' :: p.1, p.2))
      | 'r' => (parseStringBody fuel rest).map (fun p => ('\r' :: p.1, p.2))
      | 't' => (parseStringBody fuel rest).map (fun p => ('\t' :: p.1, p.2))
      | 'u' =>
        match rest with
        | h1 :: h2 :: h3 :: h4 :: rest2 =>
          match hexVal h1, hexVal h2, hexVal h3, hexVal h4 with
          | some a, some b, some c, some d =>
            (parseStringBody fuel rest2).map
              (fun p => (Char.ofNat (4096 * a + 256 * b + 16 * c + d) :: p.1, p.2))
          | _, _, _, _ => none
        | _ => none
      | _ => none
    | c :: rest => (parseStringBody fuel rest).map (fun p => (c :: p.1, p.2))
    | [] => none

def digitsToNat (ds : List Char) : Nat :=
  ds.foldl (fun n c => 10 * n + (c.toNat - '0'.toNat)) 0

/-- Assemble a rational from sign, integer digits, fraction digits and a
signed decimal exponent.  A plain integer avoids rational arithmetic. -/
def ratOfParts (neg : Bool) (ds fs : List Char) (expNeg : Bool) (e : Nat) : Rat :=
  let mag : Rat :=
    if fs.isEmpty && e == 0 then (digitsToNat ds : Rat)
    else
      let base : Rat := (digitsToNat (ds ++ fs) : Rat) / ((10 : Rat) ^ fs.length)
      if expNeg then base / (10 : Rat) ^ e else base * (10 : Rat) ^ e
  if neg then -mag else mag

def parseNumber (l : List Char) : Option (Rat × List Char) :=
  let neg : Bool := match l.head? with | some '-' => true | _ => false
  let l1 := if neg then l.tail else l
  let ds := l1.takeWhile Char.isDigit
  let r1 := l1.drop ds.length
  if ds.isEmpty then none
  else
    let hasFrac : Bool := match r1.head? with | some '.' => true | _ => false
    let fs := if hasFrac then r1.tail.takeWhile Char.isDigit else []
    if hasFrac && fs.isEmpty then none
    else
      let r2 := if hasFrac then r1.tail.drop fs.length else r1
      let hasExp : Bool := match r2.head? with | some 'e' => true | some 'E' => true | _ => false
      if hasExp then
        let r3 := r2.tail
        let esign : Bool := match r3.head? with | some '-' => true | some '+' => true | _ => false
        let eneg : Bool := match r3.head? with | some '-' => true | _ => false
        let r4 := if esign then r3.tail else r3
        let es := r4.takeWhile Char.isDigit
        if es.isEmpty then none
        else some (ratOfParts neg ds fs eneg (digitsToNat es), r4.drop es.length)
      else some (ratOfParts neg ds fs false 0, r2)

mutual

def parseValue : Nat → List Char → Option (Json × List Char)
  | 0, _ => none
  | fuel + 1, l =>
    match skipWs l with
    | 'n' :: 'u' :: 'l' :: 'l' :: rest => some (Json.null, rest)
    | 't' :: 'r' :: 'u' :: 'e' :: rest => some (Json.bool true, rest)
    | 'f' :: 'a' :: 'l' :: 's' :: 'e' :: rest => some (Json.bool false, rest)
    | '"' :: rest => (parseStringBody fuel rest).map (fun p => (Json.str (String.mk p.1), p.2))
    | '[' :: rest =>
      match skipWs rest with
      | ']' :: rest2 => some (Json.arr [], rest2)
      | _ => (parseElems fuel rest).map (fun p => (Json.arr p.1, p.2))
    | '{' :: rest =>
      match skipWs rest with
      | '}' :: rest2 => some (Json.obj [], rest2)
      | _ => (parseMembers fuel rest).map (fun p => (Json.obj p.1, p.2))
    | rest => (parseNumber rest).map (fun p => (Json.num p.1, p.2))

def parseElems : Nat → List Char → Option (List Json × List Char)
  | 0, _ => none
  | fuel + 1, l =>
    match parseValue fuel l with
    | none => none
    | some (v, r) =>
      match skipWs r with
      | ',' :: r2 => (parseElems fuel r2).map (fun p => (v :: p.1, p.2))
      | ']' :: r2 => some ([v], r2)
      | _ => none

def parseMembers : Nat → List Char → Option (List (String × Json) × List Char)
  | 0, _ => none
  | fuel + 1, l =>
    match skipWs l with
    | '"' :: rest =>
      match parseStringBody fuel rest with
      | none => none
      | some (k, r) =>
        match skipWs r with
        | ':' :: r2 =>
          match parseValue fuel r2 with
          | none => none
          | some (v, r3) =>
            match skipWs r3 with
            | ',' :: r4 => (parseMembers fuel r4).map (fun p => ((String.mk k, v) :: p.1, p.2))
            | '}' :: r4 => some ([(String.mk k, v)], r4)
            | _ => none
        | _ => none
    | _ => none

end

/-- The whole of `JSON.parse`: a single value with nothing but whitespace
after it. -/
def jsonParse (l : List Char) : Option Json :=
  match parseValue (2 * l.length + 4) l with
  | some (v, rest) => if (skipWs rest).isEmpty then some v else none
  | none => none

/-! ## Client-side `generateQuizQuestions` (App.tsx): first attempt and
one simplified-prompt retry

The provider is opaque, so the function is modelled over the two raw
texts the provider returns (for the full prompt and for the simplified
retry prompt).  The parse function is a parameter so that round-trip
facts about extraction hold for any parser; `jsonParse` instantiates it. -/

/-- First attempt: cleanup + `JSON.parse` + full structure validation
(lines 201-253 of the client service in App.tsx). -/
def firstAttemptWith (parse : List Char → Option Json) (raw : List Char) :
    Except String Json :=
  match parse (extractJson raw) with
  | none => Except.error "Unexpected token in JSON"
  | some j =>
    match validateQuizStructure j with
    | Except.ok _ => Except.ok j
    | Except.error e => Except.error e

/-- Retry attempt: the same cleanup and parse, but only
`if (!retryQuizData.questions || !Array.isArray(retryQuizData.questions))`
is checked — the per-question validation is not repeated
(lines 260-319 of the client service in App.tsx). -/
def retryAttemptWith (parse : List Char → Option Json) (raw : List Char) :
    Except String Json :=
  match parse (extractJson raw) with
  | none => Except.error "Unexpected token in JSON"
  | some j =>
    match j.getField "questions" with
    | some (Json.arr _) => Except.ok j
    | _ => Except.error "Invalid retry response structure"

/-- `generateQuizQuestions`, over the two provider responses: try the full
pipeline, on any failure run the retry pipeline once, and if that fails
too throw the fixed message, wrapped by the outer catch into
`Failed to generate quiz questions: ...`. -/
def generateQuizQuestions (parse : List Char → Option Json)
    (firstText retryText : List Char) : Except String Json :=
  match firstAttemptWith parse firstText with
  | Except.ok d => Except.ok d
  | Except.error _ =>
    match retryAttemptWith parse retryText with
    | Except.ok d => Except.ok d
    | Except.error _ =>
      Except.error ("Failed to generate quiz questions: " ++
        "Failed to parse quiz questions from AI response after retry")

/-- The parsed form of a retry response whose single question has five
options. -/
def badRetryJson : Json :=
  Json.obj
    [("questions",
      Json.arr
        [Json.obj
          [("question", Json.str "Q?"),
           ("options",
            Json.arr [Json.str "A", Json.str "B", Json.str "C", Json.str "D", Json.str "E"]),
           ("correctAnswer", Json.num 0)]]),
     ("topic", Json.str "t"),
     ("difficulty", Json.str "easy")]

/-- The raw retry text for `badRetryJson`. -/
def badRetryText : List Char :=
  ("\x7b\"questions\": [\x7b\"question\": \"Q?\", \"options\": [\"A\",\"B\",\"C\",\"D\",\"E\"], " ++
   "\"correctAnswer\": 0\x7d], \"topic\": \"t\", \"difficulty\": \"easy\"\x7d").toList

/-- Claim C4, counterexample: after a first-attempt failure, a retry
response whose question has five options is accepted, although the full
validation (which the claim says is applied to the retry response as
well) rejects it — the per-question schema checks are not reapplied on
the retry path. -/
theorem claim_c4_counterexample :
    firstAttemptWith jsonParse ("Sorry, I cannot help.".toList)
        = Except.error "Unexpected token in JSON" ∧
      generateQuizQuestions jsonParse ("Sorry, I cannot help.".toList) badRetryText
        = Except.ok badRetryJson ∧
      validateQuizStructure badRetryJson
        = Except.error "Invalid question structure at index 0" :=
  ⟨rfl, rfl, rfl⟩

/-- Claim C4 (amended): when the first attempt fails (extraction, parse or
validation), exactly one retry decides the outcome: the retry response
goes through the same extraction and parsing, but only the
questions-array check; if it also fails, the call fails with the fixed
message `Failed to generate quiz questions: Failed to parse quiz
questions from AI response after retry` (the retry's underlying cause is
not attached), and no further attempt is made. -/
theorem claim_c4_theorem (parse : List Char → Option Json)
    (firstText retryText : List Char) (e : String)
    (h : firstAttemptWith parse firstText = Except.error e) :
    generateQuizQuestions parse firstText retryText =
      match retryAttemptWith parse retryText with
      | Except.ok d => Except.ok d
      | Except.error _ =>
        Except.error
          "Failed to generate quiz questions: Failed to parse quiz questions from AI response after retry" := by
  unfold generateQuizQuestions
  rw [h]
  cases retryAttemptWith parse retryText <;> rfl

/-- Witness for C4's amended theorem: both attempts fail on concrete
non-JSON responses and the call returns the fixed wrapped message. -/
theorem claim_c4_witness :
    generateQuizQuestions jsonParse ("Sorry, I cannot help.".toList)
        ("I could not produce JSON.".toList) =
      Except.error
        "Failed to generate quiz questions: Failed to parse quiz questions from AI response after retry" := by
  have h := claim_c4_theorem jsonParse ("Sorry, I cannot help.".toList)
    ("I could not produce JSON.".toList) "Unexpected token in JSON" rfl
  exact h.trans rfl

/-! ## Quiz play state machine (`QuizGame` component, src/unnamed/part_000)

React state is modelled as an explicit record; one gameplay event
(`selectAnswer(i)` from a click, or the timer expiring, which calls
`handleAnswerSelect(-1)`) is modelled by `handleAnswerSelect` below,
including the scheduled auto-advance that runs 3 seconds later.  The
navigation to `/results` is recorded in the `navigated` field. -/

structure Question where
  id : Option Int
  question : String
  options : List String
  correctAnswer : Int
  explanation : Option String
  difficulty : Option String
  timeLimit : Option Int
  deriving Repr

instance : Inhabited Question :=
  ⟨{ id := none, question := "", options := [], correctAnswer := 0,
     explanation := none, difficulty := none, timeLimit := none }⟩

/-- The hard-coded fallback questions used when no AI questions were
passed in the navigation state (`QuizGame` lines 30-113). -/
def mockQuestions : List Question :=
  [{ id := some 1,
     question := "What is the primary purpose of software testing?",
     options := ["To find bugs and defects", "To make software faster",
                 "To reduce development cost", "To improve user interface"],
     correctAnswer := 0,
     explanation := some "Software testing primarily aims to identify bugs and defects to ensure software quality.",
     difficulty := some "medium", timeLimit := some 30 },
   { id := some 2,
     question := "Which type of testing focuses on individual components or modules?",
     options := ["Integration testing", "System testing", "Unit testing", "Acceptance testing"],
     correctAnswer := 2,
     explanation := some "Unit testing focuses on testing individual components or modules in isolation.",
     difficulty := some "medium", timeLimit := some 30 },
   { id := some 3,
     question := "What does the acronym 'TDD' stand for in software development?",
     options := ["Test-Driven Development", "Technical Design Document",
                 "Tool Development Division", "Time-Driven Delivery"],
     correctAnswer := 0,
     explanation := some "TDD stands for Test-Driven Development, where tests are written before the actual code.",
     difficulty := some "medium", timeLimit := some 30 },
   { id := some 4,
     question := "Which testing technique involves testing without knowing the internal code structure?",
     options := ["White box testing", "Gray box testing", "Black box testing", "Glass box testing"],
     correctAnswer := 2,
     explanation := some "Black box testing focuses on testing functionality without knowledge of internal implementation.",
     difficulty := some "medium", timeLimit := some 30 },
   { id := some 5,
     question := "What is regression testing primarily concerned with?",
     options := ["Testing new features", "Ensuring existing functionality still works",
                 "Performance optimization", "Security vulnerabilities"],
     correctAnswer := 1,
     explanation := some "Regression testing ensures that new changes don't break existing functionality.",
     difficulty := some "medium", timeLimit := some 30 }]

/-- One entry of the payload passed to `navigate("/results", ...)`:
`{ id: i, ...q, userAnswer: "correct" | "incorrect" | "unanswered" }`.
The spread keeps the question's own `id` when it has one. -/
structure QuestionResult where
  id : Int
  question : Question
  userAnswer : String
  deriving Repr

/-- The navigation state received by `ResultsPage`. -/
structure ResultsState where
  score : Nat
  totalQuestions : Nat
  topic : String
  difficulty : String
  questions : List QuestionResult
  deriving Repr

/-- The React state of `QuizGame` (plus the recorded results navigation). -/
structure GameState where
  topic : String
  difficulty : String
  questions : List Question
  currentQuestionIndex : Nat
  selectedAnswer : Option Int
  showResult : Bool
  score : Nat
  answeredQuestions : List Bool
  userAnswers : List Int
  navigated : Option ResultsState
  deriving Repr

/-- Initial state: `aiQuestions.length > 0 ? aiQuestions : [mock data]`,
index 0, score 0, `answeredQuestions` all false, `userAnswers` all -1. -/
def initGame (topic difficulty : String) (aiQuestions : List Question) : GameState :=
  let qs := if aiQuestions.length > 0 then aiQuestions else mockQuestions
  { topic := topic, difficulty := difficulty, questions := qs,
    currentQuestionIndex := 0, selectedAnswer := none, showResult := false,
    score := 0,
    answeredQuestions := List.replicate qs.length false,
    userAnswers := List.replicate qs.length (-1),
    navigated := none }

/-- `handleAnswerSelect(answerIndex)` together with the auto-advance
callback scheduled 3 seconds later.  The guard
`if (answeredQuestions[currentQuestionIndex] || showResult) return` makes
repeated selections no-ops.  The navigate payload is built from the
values captured by the callback's closure: the pre-click arrays and
`answerIndex` (the current question is classified from `answerIndex`
directly; `finalScore` recomputes the increment, which equals the
post-click score). -/
def handleAnswerSelect (s : GameState) (answerIndex : Int) : GameState :=
  if s.answeredQuestions.getD s.currentQuestionIndex false || s.showResult then s
  else
    let q := s.questions.getD s.currentQuestionIndex default
    let answered2 := s.answeredQuestions.set s.currentQuestionIndex true
    let userAnswers2 := s.userAnswers.set s.currentQuestionIndex answerIndex
    let score2 := if answerIndex = q.correctAnswer then s.score + 1 else s.score
    if s.currentQuestionIndex < s.questions.length - 1 then
      { s with currentQuestionIndex := s.currentQuestionIndex + 1,
               selectedAnswer := none, showResult := false,
               answeredQuestions := answered2, userAnswers := userAnswers2,
               score := score2 }
    else
      { s with selectedAnswer := some answerIndex, showResult := true,
               answeredQuestions := answered2, userAnswers := userAnswers2,
               score := score2,
               navigated := some
                 { score := score2,
                   totalQuestions := s.questions.length,
                   topic := s.topic, difficulty := s.difficulty,
                   questions := s.questions.enum.map (fun p =>
                     { id := p.2.id.getD (p.1 : Int),
                       question := p.2,
                       userAnswer :=
                         if p.1 = s.currentQuestionIndex then
                           if answerIndex = -1 then "unanswered"
                           else if answerIndex = q.correctAnswer then "correct"
                           else "incorrect"
                         else if s.answeredQuestions.getD p.1 false then
                           if s.userAnswers.getD p.1 (-1) = p.2.correctAnswer then "correct"
                           else "incorrect"
                         else "unanswered" }) } }

/-- A full play session: fold the events over the initial state. -/
def runGame (topic difficulty : String) (qs : List Question) (evs : List Int) : GameState :=
  evs.foldl handleAnswerSelect (initGame topic difficulty qs)

/-- The number of events whose selected index equals the corresponding
question's `correctAnswer`. -/
def countCorrect (qs : List Question) (evs : List Int) : Nat :=
  ((evs.zip qs).filter (fun p => p.1 == p.2.correctAnswer)).length

/-! ### `ResultsPage` aggregation -/

def correctAnswers (r : ResultsState) : Nat :=
  (r.questions.filter (fun q => q.userAnswer == "correct")).length

def incorrectAnswers (r : ResultsState) : Nat :=
  (r.questions.filter (fun q => q.userAnswer == "incorrect")).length

def unansweredQuestions (r : ResultsState) : Nat :=
  (r.questions.filter (fun q => q.userAnswer == "unanswered")).length

def missedQuestions (r : ResultsState) : List QuestionResult :=
  r.questions.filter (fun q => q.userAnswer == "incorrect")

/-- Two questions used in the timeout-classification runs. -/
def bugQ0 : Question :=
  { id := none, question := "Q0", options := ["a", "b", "c", "d"],
    correctAnswer := 0, explanation := none, difficulty := none, timeLimit := none }

def bugQ1 : Question :=
  { id := none, question := "Q1", options := ["a", "b", "c", "d"],
    correctAnswer := 0, explanation := none, difficulty := none, timeLimit := none }

/-- Claim C3: in a two-question session where the first question times out
(`handleAnswerSelect(-1)`) and the second is answered correctly, the
sentinel -1 is recorded for question 0 and the score counts only question
1 — but question 0 is reported as "incorrect", not "unanswered": the
`userAnswers[i] === q.correctAnswer` branch used for earlier questions
never checks for the sentinel, contradicting the spec's outcome
classification (only the final question's timeout yields "unanswered"). -/
theorem claim_c3_theorem :
    (runGame "t" "medium" [bugQ0, bugQ1] [-1, 0]).userAnswers = [-1, 0] ∧
      ((runGame "t" "medium" [bugQ0, bugQ1] [-1, 0]).navigated.map
        (fun r => (r.questions.map (fun x => x.userAnswer), r.score)))
      = some (["incorrect", "correct"], 1) :=
  ⟨rfl, rfl⟩

/-- Claim C5, counterexample: in the same session, question 0 has the
sentinel recorded, yet the aggregation counts it as incorrect
(`unanswered` count 0, `incorrect` count 1) and the missed-questions set
handed to the review flow contains it — so "unanswered (sentinel
recorded)" and the exclusion of sentinel-recorded questions from the
missed set are both false as stated. -/
theorem claim_c5_counterexample :
    (runGame "t" "medium" [bugQ0, bugQ1] [-1, 0]).userAnswers = [-1, 0] ∧
      ((runGame "t" "medium" [bugQ0, bugQ1] [-1, 0]).navigated.map
        (fun r => (correctAnswers r, incorrectAnswers r, unansweredQuestions r,
                   (missedQuestions r).map (fun x => x.question.question))))
      = some (1, 1, 0, ["Q0"]) :=
  ⟨rfl, rfl⟩

/-- Claim C10: entering the quiz screen with no questions supplied plays
the fixed built-in set of 5 Software Testing questions, each with exactly
4 options and `correctAnswer` in [0,3]. -/
theorem claim_c10_theorem (topic difficulty : String) :
    (initGame topic difficulty []).questions = mockQuestions ∧
      mockQuestions.length = 5 ∧
      mockQuestions.all (fun q =>
        q.options.length == 4 && decide (0 ≤ q.correctAnswer) &&
          decide (q.correctAnswer ≤ 3)) = true :=
  ⟨rfl, rfl, rfl⟩
/-! ### Session invariant

`midState` describes the component state after the first `k` questions
have been answered (with the answer for question `i` being the `i`-th
event) and before anything has happened on question `k`. -/

def midState (t d : String) (qs : List Question) (done : List Int) : GameState :=
  { topic := t, difficulty := d, questions := qs,
    currentQuestionIndex := done.length, selectedAnswer := none, showResult := false,
    score := countCorrect qs done,
    answeredQuestions :=
      List.replicate done.length true ++ List.replicate (qs.length - done.length) false,
    userAnswers := done ++ List.replicate (qs.length - done.length) (-1),
    navigated := none }

theorem countCorrect_nil (qs : List Question) : countCorrect qs [] = 0 := rfl

theorem initGame_eq_midState (t d : String) (qs : List Question) (hq : qs ≠ []) :
    initGame t d qs = midState t d qs [] := by
  have hlen : qs.length > 0 := List.length_pos.mpr hq
  unfold initGame midState
  simp only [hlen, ite_true, List.length_nil, Nat.sub_zero, List.replicate_zero,
    List.nil_append, countCorrect_nil, List.zip_nil_left, List.filter_nil,
    List.length_nil]

theorem countCorrect_cons (x : Int) (evs : List Int) (q : Question) (qs : List Question) :
    countCorrect (q :: qs) (x :: evs) =
      (if x = q.correctAnswer then 1 else 0) + countCorrect qs evs := by
  simp only [countCorrect, List.zip_cons_cons, List.filter_cons]
  by_cases hx : x = q.correctAnswer
  · simp [hx]
    omega
  · have hb : ((x, q).1 == (x, q).2.correctAnswer) = false := by simpa using hx
    simp [hb, hx]

theorem countCorrect_concat (qs : List Question) (done : List Int) (e : Int)
    (h : done.length < qs.length) :
    countCorrect qs (done ++ [e]) =
      countCorrect qs done +
        (if e = (qs.getD done.length default).correctAnswer then 1 else 0) := by
  induction done generalizing qs with
  | nil =>
    cases qs with
    | nil => simp at h
    | cons q qs' =>
      show countCorrect (q :: qs') [e] = _
      rw [countCorrect_cons]
      simp [countCorrect_nil, List.getD_cons_zero]
  | cons x done' ih =>
    cases qs with
    | nil => simp at h
    | cons q qs' =>
      have h' : done'.length < qs'.length := by
        simp only [List.length_cons] at h
        omega
      show countCorrect (q :: qs') (x :: (done' ++ [e])) = _
      rw [countCorrect_cons, ih qs' h', countCorrect_cons]
      have hg : (q :: qs').getD (x :: done').length default = qs'.getD done'.length default := by
        simp [List.getD_cons_succ]
      rw [hg]
      omega

theorem getD_replicate {α : Type} (m i : Nat) (a : α) :
    (List.replicate m a).getD i a = a := by
  induction m generalizing i with
  | zero => rfl
  | succ m ih =>
    cases i with
    | zero => rfl
    | succ i => simpa [List.replicate_succ, List.getD_cons_succ] using ih i

theorem getD_replicate_lt {α : Type} (m i : Nat) (a b : α) (h : i < m) :
    (List.replicate m a).getD i b = a := by
  induction m generalizing i with
  | zero => omega
  | succ m ih =>
    cases i with
    | zero => rfl
    | succ i =>
      have := ih i (by omega)
      simpa [List.replicate_succ, List.getD_cons_succ] using this

theorem midState_guard (t d : String) (qs : List Question) (done : List Int) :
    ((midState t d qs done).answeredQuestions.getD
        (midState t d qs done).currentQuestionIndex false
      || (midState t d qs done).showResult) = false := by
  simp only [midState]
  rw [List.getD_append_right _ _ _ _ (by simp)]
  simp [getD_replicate]

theorem handleAnswerSelect_mid (t d : String) (qs : List Question) (done : List Int) (e : Int)
    (h : done.length < qs.length - 1) :
    handleAnswerSelect (midState t d qs done) e = midState t d qs (done ++ [e]) := by
  have hguard := midState_guard t d qs done
  unfold handleAnswerSelect
  rw [hguard]
  have hidx : (midState t d qs done).currentQuestionIndex <
      (midState t d qs done).questions.length - 1 := by
    simpa [midState] using h
  simp only [Bool.false_eq_true, if_false, hidx, if_true]
  obtain ⟨m, hm⟩ : ∃ m, qs.length - done.length = m + 2 :=
    ⟨qs.length - done.length - 2, by omega⟩
  have hset1 : (midState t d qs done).answeredQuestions.set
      (midState t d qs done).currentQuestionIndex true =
      List.replicate (done ++ [e]).length true ++
        List.replicate (qs.length - (done ++ [e]).length) false := by
    simp only [midState]
    rw [List.set_append_right _ _ (by simp)]
    simp only [List.length_replicate, Nat.sub_self, hm, List.replicate_succ, List.set_cons_zero]
    rw [List.length_append, List.length_singleton]
    have h2 : qs.length - (done.length + 1) = m + 1 := by omega
    rw [h2, List.replicate_succ' done.length true]
    simp [List.replicate_succ]
  have hset2 : (midState t d qs done).userAnswers.set
      (midState t d qs done).currentQuestionIndex e =
      (done ++ [e]) ++ List.replicate (qs.length - (done ++ [e]).length) (-1) := by
    simp only [midState]
    rw [List.set_append_right _ _ (by simp)]
    simp only [Nat.sub_self, hm, List.replicate_succ, List.set_cons_zero]
    rw [List.length_append, List.length_singleton]
    have h2 : qs.length - (done.length + 1) = m + 1 := by omega
    rw [h2]
    simp [List.replicate_succ]
  have hscore : (if e = ((midState t d qs done).questions.getD
        (midState t d qs done).currentQuestionIndex default).correctAnswer
      then (midState t d qs done).score + 1 else (midState t d qs done).score) =
      countCorrect qs (done ++ [e]) := by
    simp only [midState]
    rw [countCorrect_concat qs done e (by omega)]
    by_cases he : e = (qs.getD done.length default).correctAnswer <;>
      simp only [List.getD_eq_getElem?_getD] at he ⊢ <;>
      simp [he]
  rw [hset1, hset2, hscore]
  simp only [midState, List.length_append, List.length_singleton]

theorem handleAnswerSelect_final (t d : String) (qs : List Question) (done : List Int) (e : Int)
    (hq : qs ≠ []) (hlen : done.length = qs.length - 1) :
    (handleAnswerSelect (midState t d qs done) e).navigated =
      some { score := countCorrect qs (done ++ [e]),
             totalQuestions := qs.length,
             topic := t, difficulty := d,
             questions := qs.enum.map (fun p =>
               { id := p.2.id.getD (p.1 : Int),
                 question := p.2,
                 userAnswer :=
                   if p.1 = done.length then
                     if e = -1 then "unanswered"
                     else if e = (qs.getD done.length default).correctAnswer then "correct"
                     else "incorrect"
                   else if done.getD p.1 (-1) = p.2.correctAnswer then "correct"
                   else "incorrect" }) } ∧
    (handleAnswerSelect (midState t d qs done) e).userAnswers = done ++ [e] := by
  have hq0 : 0 < qs.length := List.length_pos.mpr hq
  have hguard := midState_guard t d qs done
  unfold handleAnswerSelect
  rw [hguard]
  have hidx : ¬ ((midState t d qs done).currentQuestionIndex <
      (midState t d qs done).questions.length - 1) := by
    simp only [midState]
    omega
  simp only [Bool.false_eq_true, if_false, hidx, if_true]
  have hm : qs.length - done.length = 1 := by omega
  constructor
  · simp only [midState]
    have hscore : (if e = (qs.getD done.length default).correctAnswer
        then countCorrect qs done + 1 else countCorrect qs done) =
        countCorrect qs (done ++ [e]) := by
      rw [countCorrect_concat qs done e (by omega)]
      by_cases he : e = (qs.getD done.length default).correctAnswer <;>
      simp only [List.getD_eq_getElem?_getD] at he ⊢ <;>
      simp [he]
    rw [hscore]
    congr 1
    refine congrArg _ ?_
    apply List.map_congr_left
    intro p hp
    have hget := List.mem_enum_iff_getElem?.mp hp
    have hplt : p.1 < qs.length := by
      by_contra hge
      rw [List.getElem?_eq_none (by omega)] at hget
      cases hget
    by_cases hcur : p.1 = done.length
    · simp [hcur]
    · have hlt : p.1 < done.length := by omega
      have hans : (List.replicate done.length true ++
          List.replicate (qs.length - done.length) false).getD p.1 false = true := by
        rw [List.getD_append _ _ _ _ (by simpa using hlt)]
        exact getD_replicate_lt _ _ _ _ hlt
      have huser : (done ++ List.replicate (qs.length - done.length) (-1)).getD p.1 (-1) =
          done.getD p.1 (-1) := List.getD_append _ _ _ _ hlt
      simp only [hcur, if_false, hans, if_true, huser]
  · simp only [midState]
    rw [List.set_append_right _ _ (by simp)]
    simp only [Nat.sub_self, hm, List.replicate_succ, List.replicate_zero, List.set_cons_zero]

theorem runGame_incomplete (t d : String) (qs : List Question) (hq : qs ≠ []) :
    ∀ done : List Int, done.length < qs.length →
      runGame t d qs done = midState t d qs done := by
  intro done
  induction done using List.reverseRecOn with
  | nil =>
    intro _
    exact initGame_eq_midState t d qs hq
  | append_singleton done e ih =>
    intro hlt
    have h1 : done.length < qs.length := by
      simp only [List.length_append, List.length_singleton] at hlt
      omega
    have h2 : done.length < qs.length - 1 := by
      simp only [List.length_append, List.length_singleton] at hlt
      omega
    show (done ++ [e]).foldl handleAnswerSelect (initGame t d qs) = _
    rw [List.foldl_append]
    have hrun : done.foldl handleAnswerSelect (initGame t d qs) = midState t d qs done :=
      ih h1
    rw [hrun]
    show handleAnswerSelect (midState t d qs done) e = _
    exact handleAnswerSelect_mid t d qs done e h2

/-- The results record delivered at the end of a full session. -/
def sessionResults (t d : String) (qs : List Question) (done : List Int) (e : Int) :
    ResultsState :=
  { score := countCorrect qs (done ++ [e]),
    totalQuestions := qs.length,
    topic := t, difficulty := d,
    questions := qs.enum.map (fun p =>
      { id := p.2.id.getD (p.1 : Int),
        question := p.2,
        userAnswer :=
          if p.1 = done.length then
            if e = -1 then "unanswered"
            else if e = (qs.getD done.length default).correctAnswer then "correct"
            else "incorrect"
          else if done.getD p.1 (-1) = p.2.correctAnswer then "correct"
          else "incorrect" }) }

theorem runGame_full (t d : String) (qs : List Question) (evs : List Int)
    (hq : qs ≠ []) (hlen : evs.length = qs.length) :
    ∃ done e, evs = done ++ [e] ∧ done.length = qs.length - 1 ∧
      (runGame t d qs evs).navigated = some (sessionResults t d qs done e) ∧
      (runGame t d qs evs).userAnswers = evs := by
  have hq0 : 0 < qs.length := List.length_pos.mpr hq
  have h1 : (evs.drop (qs.length - 1)).length = 1 := by
    rw [List.length_drop, hlen]
    omega
  obtain ⟨e, he⟩ := List.length_eq_one.mp h1
  have hdlen : (evs.take (qs.length - 1)).length = qs.length - 1 := by
    rw [List.length_take, hlen]
    omega
  have hsplit : evs = evs.take (qs.length - 1) ++ [e] := by
    rw [← he]
    exact (List.take_append_drop _ _).symm
  refine ⟨evs.take (qs.length - 1), e, hsplit, hdlen, ?_, ?_⟩
  all_goals
    have hfin := handleAnswerSelect_final t d qs (evs.take (qs.length - 1)) e hq hdlen
    have hrun : runGame t d qs evs =
        handleAnswerSelect (midState t d qs (evs.take (qs.length - 1))) e := by
      conv_lhs => rw [hsplit]
      show (evs.take (qs.length - 1) ++ [e]).foldl
        handleAnswerSelect (initGame t d qs) = _
      rw [List.foldl_append]
      rw [show (evs.take (qs.length - 1)).foldl handleAnswerSelect (initGame t d qs)
        = midState t d qs (evs.take (qs.length - 1)) from
        runGame_incomplete t d qs hq (evs.take (qs.length - 1)) (by omega)]
      rfl
    rw [hrun]
  · rw [hfin.1]
    rfl
  · rw [hfin.2]
    exact hsplit.symm

/-- Claim C2: for any event sequence (clicks with any index, timeouts as
-1) of length equal to the question count, the session navigates to the
results exactly once — never on a proper prefix, and exactly at the last
event — with the reported score equal to the number of questions whose
recorded answer equals that question's `correctAnswer` (the recorded
answers being exactly the events); and `handleAnswerSelect` is a strict
no-op whenever the current question was already answered or its result is
showing. -/
theorem claim_c2_theorem (t d : String) (qs : List Question) (evs : List Int)
    (hq : qs ≠ []) (hlen : evs.length = qs.length) :
    (∀ k, k < evs.length → (runGame t d qs (evs.take k)).navigated = none) ∧
    (∃ r, (runGame t d qs evs).navigated = some r ∧
      r.score = countCorrect qs evs ∧
      r.totalQuestions = qs.length ∧
      (runGame t d qs evs).userAnswers = evs) ∧
    (∀ (s : GameState) (i : Int),
      (s.answeredQuestions.getD s.currentQuestionIndex false || s.showResult) = true →
      handleAnswerSelect s i = s) := by
  refine ⟨?_, ?_, ?_⟩
  · intro k hk
    have hklen : (evs.take k).length < qs.length := by
      rw [List.length_take]
      omega
    rw [runGame_incomplete t d qs hq (evs.take k) hklen]
    rfl
  · obtain ⟨done, e, hsplit, hdlen, hnav, hua⟩ := runGame_full t d qs evs hq hlen
    refine ⟨_, hnav, ?_, rfl, hua⟩
    show countCorrect qs (done ++ [e]) = countCorrect qs evs
    rw [← hsplit]
  · intro s i h
    unfold handleAnswerSelect
    rw [h, if_pos rfl]

/-- Witness for C2 on a concrete two-question session. -/
theorem claim_c2_witness :
    ∃ r, (runGame "Software Testing" "medium" [bugQ0, bugQ1] [0, 1]).navigated = some r ∧
      r.score = countCorrect [bugQ0, bugQ1] [0, 1] ∧
      r.totalQuestions = [bugQ0, bugQ1].length ∧
      (runGame "Software Testing" "medium" [bugQ0, bugQ1] [0, 1]).userAnswers = [0, 1] :=
  ( claim_c2_theorem "Software Testing" "medium" [bugQ0, bugQ1] [0, 1]
    (by simp) rfl).2.1

theorem count_three_labels (L : List String)
    (h : ∀ x ∈ L, x = "correct" ∨ x = "incorrect" ∨ x = "unanswered") :
    L.countP (fun s => s == "correct") + L.countP (fun s => s == "incorrect") +
      L.countP (fun s => s == "unanswered") = L.length := by
  induction L with
  | nil => rfl
  | cons x L ih =>
    have hx := h x (List.mem_cons_self x L)
    have hrest := ih (fun y hy => h y (List.mem_cons_of_mem x hy))
    rcases hx with hx | hx | hx <;> subst hx <;>
      simp only [List.countP_cons, List.length_cons] <;>
      simp <;> omega

theorem countP_filter_eq (l : List QuestionResult) (s : String) :
    (l.filter (fun q => q.userAnswer == s)).length =
      (l.map (fun x => x.userAnswer)).countP (fun x => x == s) := by
  rw [List.countP_map, ← List.countP_eq_length_filter]
  rfl

theorem enum_countP_eq_countCorrect (qs : List Question) (evs : List Int)
    (hlen : evs.length = qs.length) :
    qs.enum.countP (fun p => evs.getD p.1 (-1) == p.2.correctAnswer) =
      countCorrect qs evs := by
  induction qs generalizing evs with
  | nil =>
    cases evs with
    | nil => rfl
    | cons e evs' => simp at hlen
  | cons q qs' ih =>
    cases evs with
    | nil => simp at hlen
    | cons e evs' =>
      have hlen' : evs'.length = qs'.length := by simpa using hlen
      rw [List.enum_cons', countCorrect_cons, List.countP_cons, List.countP_map]
      have h1 : ((fun (p : Nat × Question) => (e :: evs').getD p.1 (-1) == p.2.correctAnswer) ∘
          Prod.map (· + 1) id) =
          (fun (p : Nat × Question) => evs'.getD p.1 (-1) == p.2.correctAnswer) := by
        funext p
        simp [Prod.map, List.getD_cons_succ]
      rw [show (fun (p : Nat × Question) => (e :: evs').getD p.1 (-1) == p.2.correctAnswer) ∘
          Prod.map (· + 1) id = (fun p => evs'.getD p.1 (-1) == p.2.correctAnswer) from h1]
      rw [ih evs' hlen']
      simp only [List.getD_cons_zero]
      by_cases he : e = q.correctAnswer
      · simp [he]
        omega
      · have hbe : (e == q.correctAnswer) = false := by simpa using he
        simp [hbe, he]

/-- The outcome label the completed session actually assigns to question
`p.1`: `unanswered` only when the sentinel was selected on the final
question; otherwise `correct`/`incorrect` by comparing the recorded
answer with `correctAnswer`. -/
def expectedOutcome (qs : List Question) (evs : List Int) (p : Nat × Question) : String :=
  if p.1 = qs.length - 1 then
    if evs.getD p.1 (-1) = -1 then "unanswered"
    else if evs.getD p.1 (-1) = p.2.correctAnswer then "correct"
    else "incorrect"
  else if evs.getD p.1 (-1) = p.2.correctAnswer then "correct"
  else "incorrect"

/-- Claim C5 (amended): after a completed session the outcome labels
partition the questions (`correct + incorrect + unanswered = total`), the
reported score equals the number labelled correct, and the missed set
handed to the review flow is the questions labelled incorrect — but a
question is labelled `unanswered` only when the sentinel was recorded on
the final question; a sentinel recorded earlier is labelled `incorrect`
(and therefore included in the missed set). -/
theorem claim_c5_theorem (t d : String) (qs : List Question) (evs : List Int)
    (hq : qs ≠ []) (hlen : evs.length = qs.length)
    (hrange : ∀ q ∈ qs, 0 ≤ q.correctAnswer ∧ q.correctAnswer ≤ 3) :
    ∃ r, (runGame t d qs evs).navigated = some r ∧
      r.questions.map (fun x => x.userAnswer) = qs.enum.map (expectedOutcome qs evs) ∧
      correctAnswers r + incorrectAnswers r + unansweredQuestions r = r.questions.length ∧
      r.questions.length = qs.length ∧
      r.score = correctAnswers r ∧
      missedQuestions r = r.questions.filter (fun x => x.userAnswer == "incorrect") := by
  obtain ⟨done, e, hsplit, hdlen, hnav, hua⟩ := runGame_full t d qs evs hq hlen
  have hq0 : 0 < qs.length := List.length_pos.mpr hq
  have hgetE : evs.getD done.length (-1) = e := by
    rw [hsplit, List.getD_append_right _ _ _ _ le_rfl]
    simp
  have hgetL : ∀ i, i < done.length → evs.getD i (-1) = done.getD i (-1) := by
    intro i hi
    rw [hsplit, List.getD_append _ _ _ _ hi]
  have hlabel :
      (sessionResults t d qs done e).questions.map (fun x => x.userAnswer) =
        qs.enum.map (expectedOutcome qs evs) := by
    unfold sessionResults
    rw [List.map_map]
    apply List.map_congr_left
    intro p hp
    have hget := List.mem_enum_iff_getElem?.mp hp
    have hplt : p.1 < qs.length := by
      by_contra hge
      rw [List.getElem?_eq_none (by omega)] at hget
      cases hget
    have hgetD : qs.getD p.1 default = p.2 := by
      rw [List.getD_eq_getElem?_getD, hget]
      rfl
    show (if p.1 = done.length then
        if e = -1 then "unanswered"
        else if e = (qs.getD done.length default).correctAnswer then "correct"
        else "incorrect"
      else if done.getD p.1 (-1) = p.2.correctAnswer then "correct"
      else "incorrect") = expectedOutcome qs evs p
    unfold expectedOutcome
    by_cases hcur : p.1 = done.length
    · have hc2 : p.1 = qs.length - 1 := by omega
      rw [if_pos hcur, if_pos hc2, hcur, hgetE]
      rw [hcur] at hgetD
      rw [hgetD]
    · have hc2 : ¬ p.1 = qs.length - 1 := by omega
      rw [if_neg hcur, if_neg hc2, hgetL p.1 (by omega)]
  refine ⟨_, hnav, hlabel, ?_, ?_, ?_, rfl⟩
  · have hmem : ∀ x ∈ (sessionResults t d qs done e).questions.map (fun x => x.userAnswer),
        x = "correct" ∨ x = "incorrect" ∨ x = "unanswered" := by
      rw [hlabel]
      intro x hx
      obtain ⟨p, _, hpx⟩ := List.mem_map.mp hx
      rw [← hpx]
      unfold expectedOutcome
      split
      · split
        · right; right; rfl
        · split
          · left; rfl
          · right; left; rfl
      · split
        · left; rfl
        · right; left; rfl
    have hsum := count_three_labels _ hmem
    unfold correctAnswers incorrectAnswers unansweredQuestions
    rw [countP_filter_eq, countP_filter_eq, countP_filter_eq]
    rw [hsum, List.length_map]
  · unfold sessionResults
    simp
  · show countCorrect qs (done ++ [e]) = correctAnswers (sessionResults t d qs done e)
    unfold correctAnswers
    rw [countP_filter_eq, hlabel, List.countP_map]
    have hcongr : qs.enum.countP ((fun x => x == "correct") ∘ expectedOutcome qs evs) =
        qs.enum.countP (fun p => evs.getD p.1 (-1) == p.2.correctAnswer) := by
      apply List.countP_congr
      intro p hp
      have hget := List.mem_enum_iff_getElem?.mp hp
      have hpmem : p.2 ∈ qs := List.getElem?_mem hget
      have hcr := hrange p.2 hpmem
      show ((expectedOutcome qs evs p == "correct") = true) ↔ _
      unfold expectedOutcome
      by_cases hcur : p.1 = qs.length - 1
      · rw [if_pos hcur]
        by_cases hsent : evs.getD p.1 (-1) = -1
        · rw [if_pos hsent, hsent]
          constructor
          · intro hfalse
            exact absurd hfalse (by decide)
          · intro hfalse
            have : (-1 : Int) = p.2.correctAnswer := by
              simpa using hfalse
            omega
        · rw [if_neg hsent]
          by_cases hco : evs.getD p.1 (-1) = p.2.correctAnswer
          · simp [hco]
          · have hbe : (evs.getD p.1 (-1) == p.2.correctAnswer) = false := by
              simpa using hco
            simp [hco, hbe]
      · rw [if_neg hcur]
        by_cases hco : evs.getD p.1 (-1) = p.2.correctAnswer
        · simp [hco]
        · have hbe : (evs.getD p.1 (-1) == p.2.correctAnswer) = false := by
            simpa using hco
          simp [hco, hbe]
    rw [hcongr, enum_countP_eq_countCorrect qs evs hlen, hsplit]

/-- Witness for C5's amended theorem on a concrete session where the
first question times out. -/
theorem claim_c5_witness :
    ∃ r, (runGame "t" "medium" [bugQ0, bugQ1] [-1, 0]).navigated = some r ∧
      r.questions.map (fun x => x.userAnswer) =
        ([bugQ0, bugQ1].enum.map (expectedOutcome [bugQ0, bugQ1] [-1, 0])) ∧
      correctAnswers r + incorrectAnswers r + unansweredQuestions r = r.questions.length ∧
      r.questions.length = [bugQ0, bugQ1].length ∧
      r.score = correctAnswers r ∧
      missedQuestions r = r.questions.filter (fun x => x.userAnswer == "incorrect") :=
  claim_c5_theorem "t" "medium" [bugQ0, bugQ1] [-1, 0]
    (by simp) rfl (by decide)

/-! ## Topic-specific prompt instructions
(`getTopicSpecificInstructions`, App.tsx lines 56-132) -/

inductive Difficulty where
  | easy
  | medium
  | hard
  deriving DecidableEq, Repr

/-- The instruction text returned by `getTopicSpecificInstructions`,
abstracted by which of the seven string literals of the source the
function returns. -/
inductive TopicInstr where
  | testingHard
  | testingMedium
  | testingEasy
  | programmingHard
  | performanceHard
  | genericHard
  | genericPractical
  deriving DecidableEq, Repr

/-- `String.prototype.includes(pat)` on character lists. -/
def containsSeq (pat : List Char) : List Char → Bool
  | [] => pat.isEmpty
  | c :: rest => pat.isPrefixOf (c :: rest) || containsSeq pat rest

theorem containsSeq_infix_iff (pat l : List Char) :
    containsSeq pat l = true ↔ pat <:+: l := by
  induction l with
  | nil =>
    simp only [containsSeq, List.isEmpty_iff, List.infix_nil]
  | cons c rest ih =>
    simp only [containsSeq, Bool.or_eq_true, List.isPrefixOf_iff_prefix, ih,
      List.infix_cons_iff]

/-- `getTopicSpecificInstructions(topic, difficulty)`: the topic is
lower-cased, the keyword families are tried in source order
(testing, then javascript/programming, then performance/optimization),
and everything else — including a family match at a difficulty for which
its block has no `return` — falls through to the generic instructions. -/
def getTopicSpecificInstructions (topic : List Char) (difficulty : Difficulty) : TopicInstr :=
  let topicLower := topic.map Char.toLower
  if containsSeq ("software testing".toList) topicLower ||
      containsSeq ("testing".toList) topicLower then
    if difficulty == Difficulty.hard then TopicInstr.testingHard
    else if difficulty == Difficulty.medium then TopicInstr.testingMedium
    else TopicInstr.testingEasy
  else if (containsSeq ("javascript".toList) topicLower ||
      containsSeq ("programming".toList) topicLower) &&
      difficulty == Difficulty.hard then TopicInstr.programmingHard
  else if (containsSeq ("performance".toList) topicLower ||
      containsSeq ("optimization".toList) topicLower) &&
      difficulty == Difficulty.hard then TopicInstr.performanceHard
  else if difficulty == Difficulty.hard then TopicInstr.genericHard
  else TopicInstr.genericPractical

/-- If the lower-cased topic does not contain "testing" it cannot contain
"software testing" either (the latter has the former as an infix). -/
theorem testing_false_software (t : List Char)
    (h1 : containsSeq ("testing".toList) (t.map Char.toLower) = false) :
    containsSeq ("software testing".toList) (t.map Char.toLower) = false := by
  by_contra hc
  have hc' : containsSeq ("software testing".toList) (t.map Char.toLower) = true := by
    cases hx : containsSeq ("software testing".toList) (t.map Char.toLower)
    · exact absurd hx hc
    · rfl
  have hinf := (containsSeq_infix_iff _ _).mp hc'
  have hsub : ("testing".toList) <:+: ("software testing".toList) := by decide
  have : containsSeq ("testing".toList) (t.map Char.toLower) = true :=
    (containsSeq_infix_iff _ _).mpr (hsub.trans hinf)
  rw [h1] at this
  cases this

/-- Claim C8: the lookup is case-insensitive (it depends only on the
lower-cased topic, hence deterministic); the keyword families are tried
in order with the first match winning: the testing family wins whenever
it matches, a topic matching the javascript/programming family but not
the testing family gets the programming instruction at hard difficulty
(regardless of any performance/optimization match — first match wins),
a topic matching the performance/optimization family but neither earlier
family gets the performance instruction at hard difficulty; at non-hard
difficulties the javascript/programming and performance/optimization
blocks return nothing and fall through to the generic
practical-application instruction; and a topic matching no family gets
the generic quantitative-analysis instruction at hard difficulty and the
generic practical-application instruction otherwise. -/
theorem claim_c8_theorem :
    (∀ (t1 t2 : List Char) (d : Difficulty),
      t1.map Char.toLower = t2.map Char.toLower →
      getTopicSpecificInstructions t1 d = getTopicSpecificInstructions t2 d) ∧
    (∀ (t : List Char) (d : Difficulty),
      containsSeq ("testing".toList) (t.map Char.toLower) = true →
      getTopicSpecificInstructions t d =
        (if d == Difficulty.hard then TopicInstr.testingHard
         else if d == Difficulty.medium then TopicInstr.testingMedium
         else TopicInstr.testingEasy)) ∧
    (∀ t : List Char,
      containsSeq ("testing".toList) (t.map Char.toLower) = false →
      (containsSeq ("javascript".toList) (t.map Char.toLower) ||
        containsSeq ("programming".toList) (t.map Char.toLower)) = true →
      getTopicSpecificInstructions t Difficulty.hard = TopicInstr.programmingHard ∧
      getTopicSpecificInstructions t Difficulty.easy = TopicInstr.genericPractical ∧
      getTopicSpecificInstructions t Difficulty.medium = TopicInstr.genericPractical) ∧
    (∀ t : List Char,
      containsSeq ("testing".toList) (t.map Char.toLower) = false →
      containsSeq ("javascript".toList) (t.map Char.toLower) = false →
      containsSeq ("programming".toList) (t.map Char.toLower) = false →
      (containsSeq ("performance".toList) (t.map Char.toLower) ||
        containsSeq ("optimization".toList) (t.map Char.toLower)) = true →
      getTopicSpecificInstructions t Difficulty.hard = TopicInstr.performanceHard ∧
      getTopicSpecificInstructions t Difficulty.easy = TopicInstr.genericPractical ∧
      getTopicSpecificInstructions t Difficulty.medium = TopicInstr.genericPractical) ∧
    (∀ t : List Char,
      containsSeq ("testing".toList) (t.map Char.toLower) = false →
      containsSeq ("javascript".toList) (t.map Char.toLower) = false →
      containsSeq ("programming".toList) (t.map Char.toLower) = false →
      containsSeq ("performance".toList) (t.map Char.toLower) = false →
      containsSeq ("optimization".toList) (t.map Char.toLower) = false →
      getTopicSpecificInstructions t Difficulty.hard = TopicInstr.genericHard ∧
      getTopicSpecificInstructions t Difficulty.easy = TopicInstr.genericPractical ∧
      getTopicSpecificInstructions t Difficulty.medium = TopicInstr.genericPractical) := by
  refine ⟨?_, ?_, ?_, ?_, ?_⟩
  · intro t1 t2 d h
    unfold getTopicSpecificInstructions
    rw [h]
  · intro t d h
    simp only [getTopicSpecificInstructions]
    rw [h, Bool.or_true]
    rfl
  · intro t h1 hjs
    have hsw := testing_false_software t h1
    refine ⟨?_, ?_, ?_⟩
    · simp only [getTopicSpecificInstructions]
      rw [hsw, h1, hjs]
      rfl
    · simp only [getTopicSpecificInstructions]
      have he : (Difficulty.easy == Difficulty.hard) = false := rfl
      rw [hsw, h1, he]
      simp only [Bool.and_false]
      rfl
    · simp only [getTopicSpecificInstructions]
      have hm : (Difficulty.medium == Difficulty.hard) = false := rfl
      rw [hsw, h1, hm]
      simp only [Bool.and_false]
      rfl
  · intro t h1 h2 h3 hperf
    have hsw := testing_false_software t h1
    refine ⟨?_, ?_, ?_⟩
    · simp only [getTopicSpecificInstructions]
      rw [hsw, h1, h2, h3, hperf]
      rfl
    · simp only [getTopicSpecificInstructions]
      have he : (Difficulty.easy == Difficulty.hard) = false := rfl
      rw [hsw, h1, h2, h3, he]
      simp only [Bool.and_false]
      rfl
    · simp only [getTopicSpecificInstructions]
      have hm : (Difficulty.medium == Difficulty.hard) = false := rfl
      rw [hsw, h1, h2, h3, hm]
      simp only [Bool.and_false]
      rfl
  · intro t h1 h2 h3 h4 h5
    have hsw := testing_false_software t h1
    refine ⟨?_, ?_, ?_⟩ <;>
      · simp only [getTopicSpecificInstructions]
        rw [hsw, h1, h2, h3, h4, h5]
        rfl

/-- Witness for C8 at concrete topics, one per keyword family, including
a topic matching both the javascript/programming and the
performance/optimization families (the earlier family wins). -/
theorem claim_c8_witness :
    getTopicSpecificInstructions ("TESTING".toList) Difficulty.hard =
      getTopicSpecificInstructions ("Testing".toList) Difficulty.hard ∧
    getTopicSpecificInstructions ("Advanced Software Testing".toList) Difficulty.hard =
      TopicInstr.testingHard ∧
    getTopicSpecificInstructions ("JavaScript Performance".toList) Difficulty.hard =
      TopicInstr.programmingHard ∧
    getTopicSpecificInstructions ("JavaScript".toList) Difficulty.easy =
      TopicInstr.genericPractical ∧
    getTopicSpecificInstructions ("Performance Tuning".toList) Difficulty.hard =
      TopicInstr.performanceHard ∧
    getTopicSpecificInstructions ("Performance Tuning".toList) Difficulty.medium =
      TopicInstr.genericPractical ∧
    getTopicSpecificInstructions ("Basket Weaving".toList) Difficulty.hard =
      TopicInstr.genericHard ∧
    getTopicSpecificInstructions ("Basket Weaving".toList) Difficulty.easy =
      TopicInstr.genericPractical := by
  refine ⟨?_, ?_, ?_, ?_, ?_, ?_, ?_, ?_⟩
  · exact claim_c8_theorem.1 ("TESTING".toList) ("Testing".toList) Difficulty.hard (by decide)
  · exact claim_c8_theorem.2.1 ("Advanced Software Testing".toList) Difficulty.hard (by decide)
  · exact (claim_c8_theorem.2.2.1 ("JavaScript Performance".toList)
      (by decide) (by decide)).1
  · exact (claim_c8_theorem.2.2.1 ("JavaScript".toList)
      (by decide) (by decide)).2.1
  · exact (claim_c8_theorem.2.2.2.1 ("Performance Tuning".toList)
      (by decide) (by decide) (by decide) (by decide)).1
  · exact (claim_c8_theorem.2.2.2.1 ("Performance Tuning".toList)
      (by decide) (by decide) (by decide) (by decide)).2.2
  · exact (claim_c8_theorem.2.2.2.2 ("Basket Weaving".toList)
      (by decide) (by decide) (by decide) (by decide) (by decide)).1
  · exact (claim_c8_theorem.2.2.2.2 ("Basket Weaving".toList)
      (by decide) (by decide) (by decide) (by decide) (by decide)).2.1

/-! ## Hint generation (`generateHint` in services/geminiService.ts and
the `generate-hint` netlify handler) -/

/-- The fixed generic fallback hint string. -/
def fallbackHint : String :=
  "Think about the key concepts related to this topic and consider each option carefully."

/-- The outcome of the client's `fetch` to the hint endpoint: a network
error (rejected promise), or a response with its ok-flag and parsed JSON
body (`none` when `response.json()` fails to parse). -/
inductive FetchOutcome where
  | netError
  | resp (ok : Bool) (body : Option Json)

/-- `generateHint(question, userAnswer)` (geminiService.ts lines 54-84):
a non-ok response returns the fallback without reading the body; a parse
failure or network error is caught and returns the fallback; otherwise
`data.hint || fallback` is returned. -/
def generateHint : FetchOutcome → Json
  | FetchOutcome.netError => Json.str fallbackHint
  | FetchOutcome.resp false _ => Json.str fallbackHint
  | FetchOutcome.resp true none => Json.str fallbackHint
  | FetchOutcome.resp true (some data) =>
    match data.getField "hint" with
    | some h => if h.truthy then h else Json.str fallbackHint
    | none => Json.str fallbackHint

/-- The provider call inside the hint handler. -/
inductive ProviderOutcome where
  | ok (text : String)
  | err

/-- The hint handler's provider call and catch block: success returns 200
with the trimmed hint; a provider error is caught and returns 500 with
the fallback hint as the body. -/
def generateHintHandler (outcome : ProviderOutcome) : Nat × Json :=
  match outcome with
  | ProviderOutcome.ok text =>
    (200, Json.obj [("hint", Json.str (String.mk (trimChars text.toList)))])
  | ProviderOutcome.err => (500, Json.obj [("hint", Json.str fallbackHint)])

/-- `response.ok`: HTTP status in the 2xx range. -/
def isOkStatus (status : Nat) : Bool := 200 ≤ status && status ≤ 299

/-- Claim C9: hint generation never propagates a failure — network
errors, non-2xx responses, body parse failures, and a missing (or falsy)
`hint` field all yield the fixed fallback hint string, and a provider
error inside the hint handler produces a 500 whose client-side result is
again the fallback hint — so the review flow never sees a hint failure. -/
theorem claim_c9_theorem (b : Option Json) (data : Json)
    (hmiss : jsTruthy (data.getField "hint") = false) :
    generateHint FetchOutcome.netError = Json.str fallbackHint ∧
    generateHint (FetchOutcome.resp false b) = Json.str fallbackHint ∧
    generateHint (FetchOutcome.resp true none) = Json.str fallbackHint ∧
    generateHint (FetchOutcome.resp true (some data)) = Json.str fallbackHint ∧
    (generateHintHandler ProviderOutcome.err).1 = 500 ∧
    generateHint
      (FetchOutcome.resp (isOkStatus (generateHintHandler ProviderOutcome.err).1)
        (some (generateHintHandler ProviderOutcome.err).2)) = Json.str fallbackHint := by
  refine ⟨rfl, rfl, rfl, ?_, rfl, rfl⟩
  have hred : generateHint (FetchOutcome.resp true (some data)) =
      (match data.getField "hint" with
        | some h => if h.truthy then h else Json.str fallbackHint
        | none => Json.str fallbackHint) := rfl
  rw [hred]
  cases hg : data.getField "hint" with
  | none => rfl
  | some h =>
    have ht : h.truthy = false := by
      rw [hg] at hmiss
      exact hmiss
    show (if h.truthy then h else Json.str fallbackHint) = Json.str fallbackHint
    rw [ht]
    rfl

/-- Witness for C9 at a concrete response whose body has no `hint` field. -/
theorem claim_c9_witness :
    generateHint FetchOutcome.netError = Json.str fallbackHint ∧
    generateHint (FetchOutcome.resp false none) = Json.str fallbackHint ∧
    generateHint (FetchOutcome.resp true none) = Json.str fallbackHint ∧
    generateHint (FetchOutcome.resp true (some (Json.obj [("error", Json.str "boom")]))) =
      Json.str fallbackHint ∧
    (generateHintHandler ProviderOutcome.err).1 = 500 ∧
    generateHint
      (FetchOutcome.resp (isOkStatus (generateHintHandler ProviderOutcome.err).1)
        (some (generateHintHandler ProviderOutcome.err).2)) = Json.str fallbackHint :=
  claim_c9_theorem none (Json.obj [("error", Json.str "boom")]) rfl

/-! ## Round-trip of the extraction pipeline (Claim C6)

A payload `'{' :: mid ++ ['}']` surrounded by brace-free prose and/or a
markdown fence extracts to exactly the same text as the bare payload: no
replacement of the cleanup pass can cross the opening or closing brace of
the payload, and the final slice between the first `{` and the last `}`
recovers exactly the cleaned payload. -/

def braceFree (l : List Char) : Prop := '{' ∉ l ∧ '}' ∉ l

instance (l : List Char) : Decidable (braceFree l) := by
  unfold braceFree
  infer_instance

theorem braceFree_of_sublist {a b : List Char} (h : List.Sublist a b) (hb : braceFree b) :
    braceFree a :=
  ⟨fun hm => hb.1 (h.subset hm), fun hm => hb.2 (h.subset hm)⟩

theorem braceFree_append {a b : List Char} :
    braceFree (a ++ b) ↔ braceFree a ∧ braceFree b := by
  unfold braceFree
  simp only [List.mem_append]
  tauto

theorem braceFree_reverse {a : List Char} (h : braceFree a) : braceFree a.reverse := by
  unfold braceFree at h ⊢
  simpa using h

theorem takeWhile_append_stop {p : Char → Bool} (a b : List Char) (c : Char)
    (hc : p c = false) :
    (a ++ c :: b).takeWhile p = a.takeWhile p := by
  induction a with
  | nil => simp [List.takeWhile_cons, hc]
  | cons d a ih =>
    simp only [List.cons_append, List.takeWhile_cons]
    cases p d <;> simp [ih]

theorem dropWhile_append_stop {p : Char → Bool} (a b : List Char) (c : Char)
    (hc : p c = false) :
    (a ++ c :: b).dropWhile p = a.dropWhile p ++ c :: b := by
  induction a with
  | nil => simp [List.dropWhile_cons, hc]
  | cons d a ih =>
    simp only [List.cons_append, List.dropWhile_cons]
    cases hd : p d <;> simp [ih, hd]

theorem lastNlPos_le (w : List Char) : lastNlPos w ≤ w.length := by
  induction w with
  | nil => simp [lastNlPos]
  | cons c rest ih =>
    simp only [lastNlPos, List.length_cons]
    by_cases h : lastNlPos rest = 0 <;> simp only [h, if_pos, if_neg, ite_true, ite_false]
    · split <;> omega
    · omega

theorem blankRun_append_stop (a b : List Char) (c : Char) (hc : isWsChar c = false) :
    blankRun (a ++ c :: b) = blankRun a := by
  unfold blankRun
  rw [takeWhile_append_stop a b c hc]

theorem blankRun_le (a : List Char) : blankRun a ≤ a.length :=
  le_trans (lastNlPos_le _) ((List.takeWhile_sublist _).length_le)

theorem nl_isWsChar : isWsChar '\n' = true := rfl

theorem collapseBlank_nil : collapseBlank [] = [] := rfl

theorem collapseBlank_cons_not_nl (c : Char) (l : List Char) (hc : ¬ c = '\n') :
    collapseBlank (c :: l) = c :: collapseBlank l := by
  rw [collapseBlank_cons, if_neg hc]

theorem not_nl_of_not_ws {c : Char} (hc : isWsChar c = false) : ¬ c = '\n' := by
  intro h
  subst h
  simp [isWsChar] at hc

theorem collapseBlank_split_n :
    ∀ (n : Nat) (a : List Char), a.length ≤ n → ∀ (b : List Char) (c : Char),
      isWsChar c = false →
      collapseBlank (a ++ c :: b) = collapseBlank (a ++ [c]) ++ collapseBlank b := by
  intro n
  induction n with
  | zero =>
    intro a ha b c hc
    have haz : a = [] := List.length_eq_zero.mp (Nat.le_zero.mp ha)
    subst haz
    have hcn := not_nl_of_not_ws hc
    simp only [List.nil_append]
    rw [collapseBlank_cons_not_nl c b hcn, collapseBlank_cons_not_nl c [] hcn]
    rfl
  | succ n ih =>
    intro a ha b c hc
    cases a with
    | nil =>
      have hcn := not_nl_of_not_ws hc
      simp only [List.nil_append]
      rw [collapseBlank_cons_not_nl c b hcn, collapseBlank_cons_not_nl c [] hcn]
      rfl
    | cons d a2 =>
      have ha2 : a2.length ≤ n := by
        simp only [List.length_cons] at ha
        omega
      by_cases hd : d = '\n'
      · subst hd
        simp only [List.cons_append]
        rw [collapseBlank_cons, collapseBlank_cons, if_pos rfl, if_pos rfl]
        have hbr1 : blankRun (a2 ++ c :: b) = blankRun a2 := blankRun_append_stop a2 b c hc
        have hbr2 : blankRun (a2 ++ [c]) = blankRun a2 := by
          have := blankRun_append_stop a2 [] c hc
          simpa using this
        rw [hbr1, hbr2]
        by_cases hz : blankRun a2 = 0
        · rw [if_pos hz, if_pos hz]
          rw [ih a2 ha2 b c hc]
          rfl
        · rw [if_neg hz, if_neg hz]
          have hk : blankRun a2 ≤ a2.length := blankRun_le a2
          have hd1 : (a2 ++ c :: b).drop (blankRun a2) = a2.drop (blankRun a2) ++ c :: b :=
            List.drop_append_of_le_length hk
          have hd2 : (a2 ++ [c]).drop (blankRun a2) = a2.drop (blankRun a2) ++ [c] :=
            List.drop_append_of_le_length hk
          rw [hd1, hd2]
          have hdrop_len : (a2.drop (blankRun a2)).length ≤ n := by
            rw [List.length_drop]
            omega
          rw [ih (a2.drop (blankRun a2)) hdrop_len b c hc]
          rfl
      · simp only [List.cons_append]
        rw [collapseBlank_cons_not_nl d _ hd, collapseBlank_cons_not_nl d _ hd]
        rw [ih a2 ha2 b c hc]
        rfl

theorem collapseBlank_split (a b : List Char) (c : Char) (hc : isWsChar c = false) :
    collapseBlank (a ++ c :: b) = collapseBlank (a ++ [c]) ++ collapseBlank b :=
  collapseBlank_split_n a.length a le_rfl b c hc

theorem collapseBlank_concat_n :
    ∀ (n : Nat) (a : List Char), a.length ≤ n → ∀ c : Char, isWsChar c = false →
      ∃ z, collapseBlank (a ++ [c]) = z ++ [c] ∧ List.Sublist z a := by
  intro n
  induction n with
  | zero =>
    intro a ha c hc
    have haz : a = [] := List.length_eq_zero.mp (Nat.le_zero.mp ha)
    subst haz
    refine ⟨[], ?_, List.Sublist.refl []⟩
    rw [List.nil_append, collapseBlank_cons_not_nl c [] (not_nl_of_not_ws hc)]
    rfl
  | succ n ih =>
    intro a ha c hc
    cases a with
    | nil =>
      refine ⟨[], ?_, List.Sublist.refl []⟩
      rw [List.nil_append, collapseBlank_cons_not_nl c [] (not_nl_of_not_ws hc)]
      rfl
    | cons d a2 =>
      have ha2 : a2.length ≤ n := by
        simp only [List.length_cons] at ha
        omega
      by_cases hd : d = '\n'
      · subst hd
        simp only [List.cons_append]
        rw [collapseBlank_cons, if_pos rfl]
        have hbr2 : blankRun (a2 ++ [c]) = blankRun a2 := by
          have := blankRun_append_stop a2 [] c hc
          simpa using this
        rw [hbr2]
        by_cases hz : blankRun a2 = 0
        · rw [if_pos hz]
          obtain ⟨z, hz1, hz2⟩ := ih a2 ha2 c hc
          exact ⟨'\n' :: z, by rw [hz1]; rfl, List.Sublist.cons₂ _ hz2⟩
        · rw [if_neg hz]
          have hk : blankRun a2 ≤ a2.length := blankRun_le a2
          have hd2 : (a2 ++ [c]).drop (blankRun a2) = a2.drop (blankRun a2) ++ [c] :=
            List.drop_append_of_le_length hk
          rw [hd2]
          have hdrop_len : (a2.drop (blankRun a2)).length ≤ n := by
            rw [List.length_drop]
            omega
          obtain ⟨z, hz1, hz2⟩ := ih (a2.drop (blankRun a2)) hdrop_len c hc
          refine ⟨'\n' :: z, by rw [hz1]; rfl, ?_⟩
          exact List.Sublist.cons₂ _ (hz2.trans (List.drop_sublist _ _))
      · simp only [List.cons_append]
        rw [collapseBlank_cons_not_nl d _ hd]
        obtain ⟨z, hz1, hz2⟩ := ih a2 ha2 c hc
        exact ⟨d :: z, by rw [hz1]; rfl, List.Sublist.cons₂ _ hz2⟩

theorem collapseBlank_concat (a : List Char) (c : Char) (hc : isWsChar c = false) :
    ∃ z, collapseBlank (a ++ [c]) = z ++ [c] ∧ List.Sublist z a :=
  collapseBlank_concat_n a.length a le_rfl c hc

theorem collapseBlank_sublist_n :
    ∀ (n : Nat) (l : List Char), l.length ≤ n → List.Sublist (collapseBlank l) l := by
  intro n
  induction n with
  | zero =>
    intro l hl
    have hlz : l = [] := List.length_eq_zero.mp (Nat.le_zero.mp hl)
    subst hlz
    exact List.Sublist.refl []
  | succ n ih =>
    intro l hl
    cases l with
    | nil => exact List.Sublist.refl []
    | cons c rest =>
      have hr : rest.length ≤ n := by
        simp only [List.length_cons] at hl
        omega
      rw [collapseBlank_cons]
      by_cases hc : c = '\n'
      · subst hc
        rw [if_pos rfl]
        by_cases hz : blankRun rest = 0
        · rw [if_pos hz]
          exact List.Sublist.cons₂ _ (ih rest hr)
        · rw [if_neg hz]
          have : (rest.drop (blankRun rest)).length ≤ n := by
            rw [List.length_drop]
            omega
          exact List.Sublist.cons₂ _
            ((ih _ this).trans (List.drop_sublist _ _))
      · rw [if_neg hc]
        exact List.Sublist.cons₂ _ (ih rest hr)

theorem collapseBlank_sublist (l : List Char) : List.Sublist (collapseBlank l) l :=
  collapseBlank_sublist_n l.length l le_rfl

theorem removeCommas_nil : removeCommas [] = [] := rfl

theorem removeCommas_cons_nc (c : Char) (l : List Char) (hc : ¬ c = ',') :
    removeCommas (c :: l) = c :: removeCommas l := by
  rw [removeCommas_cons, if_neg hc]

theorem removeCommas_split_n :
    ∀ (n : Nat) (a : List Char), a.length ≤ n → ∀ (b : List Char) (c : Char),
      isWsChar c = false → ¬ c = ',' →
      removeCommas (a ++ c :: b) = removeCommas (a ++ [c]) ++ removeCommas b := by
  intro n
  induction n with
  | zero =>
    intro a ha b c hcw hcc
    have haz : a = [] := List.length_eq_zero.mp (Nat.le_zero.mp ha)
    subst haz
    simp only [List.nil_append]
    rw [removeCommas_cons_nc c b hcc, removeCommas_cons_nc c [] hcc]
    rfl
  | succ n ih =>
    intro a ha b c hcw hcc
    cases a with
    | nil =>
      simp only [List.nil_append]
      rw [removeCommas_cons_nc c b hcc, removeCommas_cons_nc c [] hcc]
      rfl
    | cons d a2 =>
      have ha2 : a2.length ≤ n := by
        simp only [List.length_cons] at ha
        omega
      by_cases hd : d = ','
      · subst hd
        simp only [List.cons_append]
        rw [removeCommas_cons, if_pos rfl, removeCommas_cons, if_pos rfl]
        have hw1 : (a2 ++ c :: b).takeWhile isWsChar = a2.takeWhile isWsChar :=
          takeWhile_append_stop a2 b c hcw
        have hw2 : (a2 ++ [c]).takeWhile isWsChar = a2.takeWhile isWsChar := by
          have := takeWhile_append_stop a2 [] c hcw
          simpa using this
        have hk : (a2.takeWhile isWsChar).length ≤ a2.length :=
          (List.takeWhile_sublist _).length_le
        have hd1 : (a2 ++ c :: b).drop (a2.takeWhile isWsChar).length =
            a2.drop (a2.takeWhile isWsChar).length ++ c :: b :=
          List.drop_append_of_le_length hk
        have hd2 : (a2 ++ [c]).drop (a2.takeWhile isWsChar).length =
            a2.drop (a2.takeWhile isWsChar).length ++ [c] :=
          List.drop_append_of_le_length hk
        rw [hw1, hw2, hd1, hd2]
        cases hr : a2.drop (a2.takeWhile isWsChar).length with
        | cons e t =>
          simp only [List.cons_append, List.head?_cons, List.tail_cons]
          have ht : t.length ≤ n := by
            have := congrArg List.length hr
            simp only [List.length_drop, List.length_cons] at this
            omega
          by_cases hbr : e = '}' ∨ e = ']'
          · rw [if_pos hbr, if_pos hbr]
            rw [ih t ht b c hcw hcc]
            simp [List.append_assoc]
          · rw [if_neg hbr, if_neg hbr]
            rw [ih a2 ha2 b c hcw hcc]
            rfl
        | nil =>
          simp only [List.nil_append, List.head?_cons, List.tail_cons]
          by_cases hcbr : c = '}' ∨ c = ']'
          · rw [if_pos hcbr, if_pos hcbr]
            rw [removeCommas_nil]
            simp
          · rw [if_neg hcbr, if_neg hcbr]
            rw [ih a2 ha2 b c hcw hcc]
            rfl
      · simp only [List.cons_append]
        rw [removeCommas_cons_nc d _ hd, removeCommas_cons_nc d _ hd]
        rw [ih a2 ha2 b c hcw hcc]
        rfl

theorem removeCommas_split (a b : List Char) (c : Char)
    (hcw : isWsChar c = false) (hcc : ¬ c = ',') :
    removeCommas (a ++ c :: b) = removeCommas (a ++ [c]) ++ removeCommas b :=
  removeCommas_split_n a.length a le_rfl b c hcw hcc

theorem drop_takeWhile_length (p : Char → Bool) (l : List Char) :
    l.drop (l.takeWhile p).length = l.dropWhile p := by
  induction l with
  | nil => rfl
  | cons c rest ih =>
    simp only [List.takeWhile_cons, List.dropWhile_cons]
    cases hp : p c
    · simp
    · simpa using ih

theorem takeWhile_drop_decomp (p : Char → Bool) (l : List Char) :
    l = l.takeWhile p ++ l.drop (l.takeWhile p).length := by
  rw [drop_takeWhile_length, List.takeWhile_append_dropWhile]

theorem removeCommas_concat_n :
    ∀ (n : Nat) (a : List Char), a.length ≤ n → ∀ c : Char,
      isWsChar c = false → ¬ c = ',' →
      ∃ z, removeCommas (a ++ [c]) = z ++ [c] ∧ List.Sublist z a := by
  intro n
  induction n with
  | zero =>
    intro a ha c hcw hcc
    have haz : a = [] := List.length_eq_zero.mp (Nat.le_zero.mp ha)
    subst haz
    refine ⟨[], ?_, List.Sublist.refl []⟩
    rw [List.nil_append, removeCommas_cons_nc c [] hcc]
    rfl
  | succ n ih =>
    intro a ha c hcw hcc
    cases a with
    | nil =>
      refine ⟨[], ?_, List.Sublist.refl []⟩
      rw [List.nil_append, removeCommas_cons_nc c [] hcc]
      rfl
    | cons d a2 =>
      have ha2 : a2.length ≤ n := by
        simp only [List.length_cons] at ha
        omega
      by_cases hd : d = ','
      · subst hd
        simp only [List.cons_append]
        rw [removeCommas_cons, if_pos rfl]
        have hw2 : (a2 ++ [c]).takeWhile isWsChar = a2.takeWhile isWsChar := by
          have := takeWhile_append_stop a2 [] c hcw
          simpa using this
        have hk : (a2.takeWhile isWsChar).length ≤ a2.length :=
          (List.takeWhile_sublist _).length_le
        have hd2 : (a2 ++ [c]).drop (a2.takeWhile isWsChar).length =
            a2.drop (a2.takeWhile isWsChar).length ++ [c] :=
          List.drop_append_of_le_length hk
        rw [hw2, hd2]
        cases hr : a2.drop (a2.takeWhile isWsChar).length with
        | cons e t =>
          simp only [List.cons_append, List.head?_cons, List.tail_cons]
          have ht : t.length ≤ n := by
            have := congrArg List.length hr
            simp only [List.length_drop, List.length_cons] at this
            omega
          have hdecomp : a2 = a2.takeWhile isWsChar ++ e :: t := by
            conv_lhs => rw [takeWhile_drop_decomp isWsChar a2]
            rw [hr]
          by_cases hbr : e = '}' ∨ e = ']'
          · rw [if_pos hbr]
            obtain ⟨z, hz1, hz2⟩ := ih t ht c hcw hcc
            refine ⟨a2.takeWhile isWsChar ++ e :: z, ?_, ?_⟩
            · rw [hz1]
              simp
            · refine List.Sublist.trans ?_ (List.sublist_cons_self ',' a2)
              conv_rhs => rw [hdecomp]
              exact List.Sublist.append_left (List.Sublist.cons₂ _ hz2) _
          · rw [if_neg hbr]
            obtain ⟨z, hz1, hz2⟩ := ih a2 ha2 c hcw hcc
            exact ⟨',' :: z, by rw [hz1]; rfl, List.Sublist.cons₂ _ hz2⟩
        | nil =>
          simp only [List.nil_append, List.head?_cons, List.tail_cons]
          by_cases hcbr : c = '}' ∨ c = ']'
          · rw [if_pos hcbr]
            refine ⟨a2.takeWhile isWsChar, ?_, ?_⟩
            · rw [removeCommas_nil]
            · exact List.Sublist.trans (List.takeWhile_sublist _)
                (List.sublist_cons_self ',' a2)
          · rw [if_neg hcbr]
            obtain ⟨z, hz1, hz2⟩ := ih a2 ha2 c hcw hcc
            exact ⟨',' :: z, by rw [hz1]; rfl, List.Sublist.cons₂ _ hz2⟩
      · simp only [List.cons_append]
        rw [removeCommas_cons_nc d _ hd]
        obtain ⟨z, hz1, hz2⟩ := ih a2 ha2 c hcw hcc
        exact ⟨d :: z, by rw [hz1]; rfl, List.Sublist.cons₂ _ hz2⟩

theorem removeCommas_concat (a : List Char) (c : Char)
    (hcw : isWsChar c = false) (hcc : ¬ c = ',') :
    ∃ z, removeCommas (a ++ [c]) = z ++ [c] ∧ List.Sublist z a :=
  removeCommas_concat_n a.length a le_rfl c hcw hcc

theorem removeCommas_sublist_n :
    ∀ (n : Nat) (l : List Char), l.length ≤ n → List.Sublist (removeCommas l) l := by
  intro n
  induction n with
  | zero =>
    intro l hl
    have hlz : l = [] := List.length_eq_zero.mp (Nat.le_zero.mp hl)
    subst hlz
    exact List.Sublist.refl []
  | succ n ih =>
    intro l hl
    cases l with
    | nil => exact List.Sublist.refl []
    | cons c rest =>
      have hr : rest.length ≤ n := by
        simp only [List.length_cons] at hl
        omega
      by_cases hc : c = ','
      · subst hc
        rw [removeCommas_cons, if_pos rfl]
        cases hdec : rest.drop (rest.takeWhile isWsChar).length with
        | nil => exact List.Sublist.cons₂ _ (ih rest hr)
        | cons e t =>
          simp only [List.head?_cons, List.tail_cons]
          have ht : t.length ≤ n := by
            have := congrArg List.length hdec
            simp only [List.length_drop, List.length_cons] at this
            omega
          have hdecomp : rest = rest.takeWhile isWsChar ++ e :: t := by
            conv_lhs => rw [takeWhile_drop_decomp isWsChar rest]
            rw [hdec]
          by_cases hbr : e = '}' ∨ e = ']'
          · rw [if_pos hbr]
            refine List.Sublist.trans ?_ (List.sublist_cons_self ',' rest)
            conv_rhs => rw [hdecomp]
            exact List.Sublist.append_left (List.Sublist.cons₂ _ (ih t ht)) _
          · rw [if_neg hbr]
            exact List.Sublist.cons₂ _ (ih rest hr)
      · rw [removeCommas_cons_nc c rest hc]
        exact List.Sublist.cons₂ _ (ih rest hr)

theorem removeCommas_sublist (l : List Char) : List.Sublist (removeCommas l) l :=
  removeCommas_sublist_n l.length l le_rfl

theorem fixQuote_open : fixQuote '{' = '{' := rfl

theorem fixQuote_close : fixQuote '}' = '}' := rfl

theorem fixQuote_ne_open {c : Char} (h : ¬ c = '{') : ¬ fixQuote c = '{' := by
  unfold fixQuote
  split
  · intro hh
    cases hh
  · split
    · intro hh
      cases hh
    · exact h

theorem fixQuote_ne_close {c : Char} (h : ¬ c = '}') : ¬ fixQuote c = '}' := by
  unfold fixQuote
  split
  · intro hh
    cases hh
  · split
    · intro hh
      cases hh
    · exact h

theorem braceFree_map_fixQuote {a : List Char} (h : braceFree a) :
    braceFree (a.map fixQuote) := by
  constructor
  · intro hm
    obtain ⟨c, hc, hfc⟩ := List.mem_map.mp hm
    exact fixQuote_ne_open (fun he => h.1 (he ▸ hc)) hfc
  · intro hm
    obtain ⟨c, hc, hfc⟩ := List.mem_map.mp hm
    exact fixQuote_ne_close (fun he => h.2 (he ▸ hc)) hfc

theorem open_not_ws : isWsChar '{' = false := rfl

theorem close_not_ws : isWsChar '}' = false := rfl

theorem open_not_comma : ¬ '{' = ',' := by decide

theorem close_not_comma : ¬ '}' = ',' := by decide

/-- The cleanup pass (smart quotes were already mapped) applied to a
payload wrapped in brace-free context equals the cleaned payload wrapped
in brace-free context. -/
theorem cleanup_wrapped (x m y : List Char) (hx : braceFree x) (hy : braceFree y) :
    ∃ u v, removeCommas (collapseBlank (x ++ ('{' :: m ++ ['}']) ++ y)) =
        u ++ removeCommas (collapseBlank ('{' :: m ++ ['}'])) ++ v ∧
      braceFree u ∧ braceFree v ∧
      ∃ w, removeCommas (collapseBlank ('{' :: m ++ ['}'])) = '{' :: w ++ ['}'] := by
  have hassoc : x ++ ('{' :: m ++ ['}']) ++ y = x ++ '{' :: (m ++ '}' :: y) := by
    simp
  have hcb1 : collapseBlank (x ++ '{' :: (m ++ '}' :: y)) =
      collapseBlank (x ++ ['{']) ++ collapseBlank (m ++ '}' :: y) :=
    collapseBlank_split x (m ++ '}' :: y) '{' open_not_ws
  have hcb2 : collapseBlank (m ++ '}' :: y) =
      collapseBlank (m ++ ['}']) ++ collapseBlank y :=
    collapseBlank_split m y '}' close_not_ws
  obtain ⟨z1, hz1, hz1s⟩ := collapseBlank_concat x '{' open_not_ws
  obtain ⟨z2, hz2, _⟩ := collapseBlank_concat m '}' close_not_ws
  -- the cleaned bare payload
  have hbare_cb : collapseBlank ('{' :: m ++ ['}']) = '{' :: (z2 ++ ['}']) := by
    rw [show ('{' :: m ++ ['}'] : List Char) = '{' :: (m ++ ['}']) from rfl]
    rw [collapseBlank_cons_not_nl '{' (m ++ ['}']) (by decide), hz2]
  have hbare_rc : removeCommas (collapseBlank ('{' :: m ++ ['}'])) =
      '{' :: removeCommas (z2 ++ ['}']) := by
    rw [hbare_cb, removeCommas_cons_nc '{' (z2 ++ ['}']) open_not_comma]
  -- the wrapped side
  have hall : removeCommas (collapseBlank (x ++ ('{' :: m ++ ['}']) ++ y)) =
      removeCommas (z1 ++ ['{']) ++ removeCommas (z2 ++ ['}']) ++
        removeCommas (collapseBlank y) := by
    rw [hassoc, hcb1, hcb2, hz1, hz2]
    have hshape : (z1 ++ ['{']) ++ ((z2 ++ ['}']) ++ collapseBlank y) =
        z1 ++ '{' :: (z2 ++ '}' :: collapseBlank y) := by
      simp
    rw [hshape]
    rw [removeCommas_split z1 (z2 ++ '}' :: collapseBlank y) '{' open_not_ws open_not_comma]
    rw [removeCommas_split z2 (collapseBlank y) '}' close_not_ws close_not_comma]
    simp
  obtain ⟨u, hu1, hu1s⟩ := removeCommas_concat z1 '{' open_not_ws open_not_comma
  obtain ⟨w, hw1, _⟩ := removeCommas_concat z2 '}' close_not_ws close_not_comma
  refine ⟨u, removeCommas (collapseBlank y), ?_, ?_, ?_, ⟨w, ?_⟩⟩
  · rw [hall, hbare_rc, hu1]
    simp
  · exact braceFree_of_sublist (hu1s.trans hz1s) hx
  · exact braceFree_of_sublist
      ((removeCommas_sublist _).trans (collapseBlank_sublist _)) hy
  · rw [hbare_rc, hw1]
    rfl

theorem prefix_stops :
    ∀ (a pat rest : List Char) (c : Char), c ∉ pat →
      pat <+: (a ++ c :: rest) → pat.length ≤ a.length := by
  intro a
  induction a with
  | nil =>
    intro pat rest c hc hpre
    cases pat with
    | nil => simp
    | cons p ps =>
      obtain ⟨r, hr⟩ := hpre
      simp only [List.cons_append, List.nil_append] at hr
      injection hr with h1 h2
      subst h1
      exact absurd (List.mem_cons_self _ _) hc
  | cons d a2 ih =>
    intro pat rest c hc hpre
    cases pat with
    | nil => simp
    | cons p ps =>
      obtain ⟨r, hr⟩ := hpre
      simp only [List.cons_append] at hr
      injection hr with h1 h2
      have hps : c ∉ ps := fun hm => hc (List.mem_cons_of_mem _ hm)
      have := ih ps rest c hps ⟨r, h2⟩
      simp only [List.length_cons]
      omega

theorem trimChars_shape (u w v : List Char) (hu : braceFree u) (hv : braceFree v) :
    ∃ u2 v2, trimChars (u ++ ('{' :: w ++ ['}']) ++ v) =
        u2 ++ ('{' :: w ++ ['}']) ++ v2 ∧ braceFree u2 ∧ braceFree v2 := by
  unfold trimChars
  have hstep1 : (u ++ ('{' :: w ++ ['}']) ++ v).dropWhile isWsChar =
      u.dropWhile isWsChar ++ '{' :: (w ++ '}' :: v) := by
    have : u ++ ('{' :: w ++ ['}']) ++ v = u ++ '{' :: (w ++ '}' :: v) := by simp
    rw [this]
    exact dropWhile_append_stop u (w ++ '}' :: v) '{' open_not_ws
  rw [hstep1]
  have hrev : (u.dropWhile isWsChar ++ '{' :: (w ++ '}' :: v)).reverse =
      v.reverse ++ '}' :: (w.reverse ++ '{' :: (u.dropWhile isWsChar).reverse) := by
    simp
  rw [hrev]
  have hstep2 : (v.reverse ++ '}' :: (w.reverse ++ '{' :: (u.dropWhile isWsChar).reverse)).dropWhile
      isWsChar = v.reverse.dropWhile isWsChar ++
        '}' :: (w.reverse ++ '{' :: (u.dropWhile isWsChar).reverse) :=
    dropWhile_append_stop _ _ '}' close_not_ws
  rw [hstep2]
  refine ⟨u.dropWhile isWsChar, (v.reverse.dropWhile isWsChar).reverse, ?_, ?_, ?_⟩
  · simp
  · exact braceFree_of_sublist (List.dropWhile_sublist _) hu
  · exact braceFree_reverse
      (braceFree_of_sublist (List.dropWhile_sublist _) (braceFree_reverse hv))

theorem stripTrailFence_shape (u w v : List Char) (_hu : braceFree u) (hv : braceFree v) :
    ∃ v2, stripTrailFence (u ++ ('{' :: w ++ ['}']) ++ v) =
        u ++ ('{' :: w ++ ['}']) ++ v2 ∧ braceFree v2 := by
  unfold stripTrailFence
  have hrev : (u ++ ('{' :: w ++ ['}']) ++ v).reverse =
      v.reverse ++ '}' :: (w.reverse ++ '{' :: u.reverse) := by
    simp
  rw [hrev]
  by_cases hfen : ("```".toList).isPrefixOf
      (v.reverse ++ '}' :: (w.reverse ++ '{' :: u.reverse)) = true
  · rw [if_pos hfen]
    have hpre := List.isPrefixOf_iff_prefix.mp hfen
    have hlen : ("```".toList).length ≤ v.reverse.length :=
      prefix_stops v.reverse ("```".toList) _ '}' (by decide) hpre
    have h3 : (3 : Nat) ≤ v.reverse.length := hlen
    have hdrop : (v.reverse ++ '}' :: (w.reverse ++ '{' :: u.reverse)).drop 3 =
        v.reverse.drop 3 ++ '}' :: (w.reverse ++ '{' :: u.reverse) :=
      List.drop_append_of_le_length h3
    rw [hdrop]
    rw [dropWhile_append_stop _ _ '}' close_not_ws]
    refine ⟨((v.reverse.drop 3).dropWhile isWsChar).reverse, ?_, ?_⟩
    · simp
    · exact braceFree_reverse (braceFree_of_sublist
        ((List.dropWhile_sublist _).trans (List.drop_sublist _ _)) (braceFree_reverse hv))
  · rw [if_neg hfen]
    exact ⟨v, rfl, hv⟩

theorem stripFence_shape (u w v : List Char) (hu : braceFree u) (hv : braceFree v) :
    ∃ u2 v2, stripFence (u ++ ('{' :: w ++ ['}']) ++ v) =
        u2 ++ ('{' :: w ++ ['}']) ++ v2 ∧ braceFree u2 ∧ braceFree v2 := by
  unfold stripFence
  have hshape : u ++ ('{' :: w ++ ['}']) ++ v = u ++ '{' :: (w ++ '}' :: v) := by
    simp
  by_cases h7 : ("```json".toList).isPrefixOf (u ++ ('{' :: w ++ ['}']) ++ v) = true
  · rw [if_pos h7]
    have hpre := List.isPrefixOf_iff_prefix.mp h7
    rw [hshape] at hpre
    have hlen : ("```json".toList).length ≤ u.length :=
      prefix_stops u ("```json".toList) _ '{' (by decide) hpre
    have h7le : (7 : Nat) ≤ u.length := hlen
    have hdrop : (u ++ ('{' :: w ++ ['}']) ++ v).drop 7 =
        u.drop 7 ++ '{' :: (w ++ '}' :: v) := by
      rw [hshape]
      exact List.drop_append_of_le_length h7le
    rw [hdrop, dropWhile_append_stop _ _ '{' open_not_ws]
    have hub : braceFree ((u.drop 7).dropWhile isWsChar) :=
      braceFree_of_sublist ((List.dropWhile_sublist _).trans (List.drop_sublist _ _)) hu
    obtain ⟨v2, hv2, hv2b⟩ := stripTrailFence_shape ((u.drop 7).dropWhile isWsChar) w v hub hv
    refine ⟨(u.drop 7).dropWhile isWsChar, v2, ?_, hub, hv2b⟩
    rw [show (u.drop 7).dropWhile isWsChar ++ '{' :: (w ++ '}' :: v) =
      (u.drop 7).dropWhile isWsChar ++ ('{' :: w ++ ['}']) ++ v by simp]
    exact hv2
  · rw [if_neg h7]
    by_cases h3 : ("```".toList).isPrefixOf (u ++ ('{' :: w ++ ['}']) ++ v) = true
    · rw [if_pos h3]
      have hpre := List.isPrefixOf_iff_prefix.mp h3
      rw [hshape] at hpre
      have hlen : ("```".toList).length ≤ u.length :=
        prefix_stops u ("```".toList) _ '{' (by decide) hpre
      have h3le : (3 : Nat) ≤ u.length := hlen
      have hdrop : (u ++ ('{' :: w ++ ['}']) ++ v).drop 3 =
          u.drop 3 ++ '{' :: (w ++ '}' :: v) := by
        rw [hshape]
        exact List.drop_append_of_le_length h3le
      rw [hdrop, dropWhile_append_stop _ _ '{' open_not_ws]
      have hub : braceFree ((u.drop 3).dropWhile isWsChar) :=
        braceFree_of_sublist ((List.dropWhile_sublist _).trans (List.drop_sublist _ _)) hu
      obtain ⟨v2, hv2, hv2b⟩ := stripTrailFence_shape ((u.drop 3).dropWhile isWsChar) w v hub hv
      refine ⟨(u.drop 3).dropWhile isWsChar, v2, ?_, hub, hv2b⟩
      rw [show (u.drop 3).dropWhile isWsChar ++ '{' :: (w ++ '}' :: v) =
        (u.drop 3).dropWhile isWsChar ++ ('{' :: w ++ ['}']) ++ v by simp]
      exact hv2
    · rw [if_neg h3]
      exact ⟨u, v, rfl, hu, hv⟩

theorem braceFree_findIdx_open {u : List Char} (hu : braceFree u) :
    u.findIdx? (fun c => c == '{') = none := by
  rw [List.findIdx?_eq_none_iff]
  intro x hx
  cases hbe : (x == '{')
  · rfl
  · have hxeq : x = '{' := by simpa using hbe
    exact absurd (hxeq ▸ hx) hu.1

theorem braceFree_findIdx_close {u : List Char} (hu : braceFree u) :
    u.findIdx? (fun c => c == '}') = none := by
  rw [List.findIdx?_eq_none_iff]
  intro x hx
  cases hbe : (x == '}')
  · rfl
  · have hxeq : x = '}' := by simpa using hbe
    exact absurd (hxeq ▸ hx) hu.2

theorem sliceBraces_shape (u w v : List Char) (hu : braceFree u) (hv : braceFree v) :
    sliceBraces (u ++ ('{' :: w ++ ['}']) ++ v) = '{' :: w ++ ['}'] := by
  unfold sliceBraces
  have hfind1 : (u ++ ('{' :: w ++ ['}']) ++ v).findIdx? (fun c => c == '{') =
      some u.length := by
    rw [show u ++ ('{' :: w ++ ['}']) ++ v = u ++ ('{' :: (w ++ '}' :: v)) by simp]
    rw [List.findIdx?_append, braceFree_findIdx_open hu]
    simp
  have hfind2 : (u ++ ('{' :: w ++ ['}']) ++ v).reverse.findIdx? (fun c => c == '}') =
      some v.length := by
    rw [show (u ++ ('{' :: w ++ ['}']) ++ v).reverse =
      v.reverse ++ ('}' :: (w.reverse ++ '{' :: u.reverse)) by simp]
    rw [List.findIdx?_append, braceFree_findIdx_close (braceFree_reverse hv)]
    simp
  rw [hfind1, hfind2]
  have hlen : (u ++ ('{' :: w ++ ['}']) ++ v).length - 1 - v.length =
      u.length + w.length + 1 := by
    simp only [List.length_append, List.length_cons]
    simp
    omega
  show (if u.length < (u ++ ('{' :: w ++ ['}']) ++ v).length - 1 - v.length then
      List.take ((u ++ ('{' :: w ++ ['}']) ++ v).length - 1 - v.length - u.length + 1)
        (List.drop u.length (u ++ ('{' :: w ++ ['}']) ++ v))
    else u ++ ('{' :: w ++ ['}']) ++ v) = '{' :: w ++ ['}']
  rw [hlen]
  have hcond : u.length < u.length + w.length + 1 := by omega
  rw [if_pos hcond]
  have hdrop : (u ++ ('{' :: w ++ ['}']) ++ v).drop u.length = ('{' :: w ++ ['}']) ++ v := by
    rw [List.append_assoc]
    exact List.drop_left u _
  rw [hdrop]
  have htake : u.length + w.length + 1 - u.length + 1 = ('{' :: w ++ ['}']).length := by
    simp only [List.length_cons, List.length_append]
    simp
    omega
  rw [htake]
  exact List.take_left _ _

theorem braceFree_nil : braceFree [] := by
  constructor <;> simp

theorem trimChars_braced (w : List Char) :
    trimChars ('{' :: w ++ ['}']) = '{' :: w ++ ['}'] := by
  unfold trimChars
  have h1 : ('{' :: w ++ ['}'] : List Char).dropWhile isWsChar = '{' :: w ++ ['}'] := by
    simp [List.dropWhile_cons, isWsChar]
  rw [h1]
  have h2 : ('{' :: w ++ ['}'] : List Char).reverse = '}' :: (w.reverse ++ ['{']) := by
    simp
  rw [h2]
  have h3 : ('}' :: (w.reverse ++ ['{']) : List Char).dropWhile isWsChar =
      '}' :: (w.reverse ++ ['{']) := by
    simp [List.dropWhile_cons, isWsChar]
  rw [h3]
  simp

theorem stripFence_braced (w : List Char) :
    stripFence ('{' :: w) = '{' :: w := by
  unfold stripFence
  have h1 : ("```json".toList).isPrefixOf ('{' :: w) = false := rfl
  have h2 : ("```".toList).isPrefixOf ('{' :: w) = false := rfl
  rw [h1, h2]
  simp

/-- Claim C6, core: a brace-delimited payload surrounded by brace-free
prose (and possibly fencing) extracts to exactly the same text as the
bare payload. -/
theorem extractJson_wrapped (a m b : List Char) (ha : braceFree a) (hb : braceFree b) :
    extractJson (a ++ ('{' :: m ++ ['}']) ++ b) = extractJson ('{' :: m ++ ['}']) := by
  unfold extractJson
  obtain ⟨a1, b1, htrim, ha1, hb1⟩ := trimChars_shape a m b ha hb
  rw [htrim]
  obtain ⟨a2, b2, hfence, ha2, hb2⟩ := stripFence_shape a1 m b1 ha1 hb1
  rw [hfence]
  have hmap : (a2 ++ ('{' :: m ++ ['}']) ++ b2).map fixQuote =
      a2.map fixQuote ++ ('{' :: m.map fixQuote ++ ['}']) ++ b2.map fixQuote := by
    simp [fixQuote_open, fixQuote_close]
  rw [hmap]
  obtain ⟨u, v, hclean, hub, hvb, w, hw⟩ :=
    cleanup_wrapped (a2.map fixQuote) (m.map fixQuote) (b2.map fixQuote)
      (braceFree_map_fixQuote ha2) (braceFree_map_fixQuote hb2)
  rw [hclean, hw]
  obtain ⟨u3, v3, htrim2, hu3, hv3⟩ := trimChars_shape u w v hub hvb
  rw [htrim2, sliceBraces_shape u3 w v3 hu3 hv3]
  rw [trimChars_braced m]
  rw [show ('{' :: m ++ ['}'] : List Char) = '{' :: (m ++ ['}']) by simp]
  rw [stripFence_braced (m ++ ['}'])]
  rw [show ('{' :: (m ++ ['}']) : List Char) = '{' :: m ++ ['}'] by simp]
  have hmapb : ('{' :: m ++ ['}'] : List Char).map fixQuote =
      '{' :: m.map fixQuote ++ ['}'] := by
    simp [fixQuote_open, fixQuote_close]
  rw [hmapb, hw, trimChars_braced w]
  have := sliceBraces_shape [] w [] braceFree_nil braceFree_nil
  simp only [List.nil_append, List.append_nil] at this
  rw [this]

/-- Claim C6: normalization round-trip.  For any JSON payload delimited by
its outer braces, surrounding it with prose and/or markdown fencing that
contains no brace characters does not change the result of the
extraction-plus-parse-plus-validation pipeline: the first attempt of
`generateQuizQuestions` returns exactly the same result (the same parsed
QuizData on success, the same error on failure) on the wrapped text as on
the bare payload, for any parse function, hence in particular for
`JSON.parse` as modelled by `jsonParse`. -/
theorem claim_c6_theorem (parse : List Char → Option Json) (a m b : List Char)
    (ha : braceFree a) (hb : braceFree b) :
    firstAttemptWith parse (a ++ ('{' :: m ++ ['}']) ++ b) =
      firstAttemptWith parse ('{' :: m ++ ['}']) := by
  unfold firstAttemptWith
  rw [extractJson_wrapped a m b ha hb]

/-- Witness for C6 at a concrete input: a payload wrapped in a
```json fence with trailing prose, checked with the concrete parser. -/
theorem claim_c6_witness :
    braceFree ("```json\n".toList) ∧ braceFree ("\n```\nEnjoy your quiz!".toList) ∧
    firstAttemptWith jsonParse
        ("```json\n".toList ++ ('{' :: "\"questions\": []".toList ++ ['}']) ++
          "\n```\nEnjoy your quiz!".toList) =
      firstAttemptWith jsonParse ('{' :: "\"questions\": []".toList ++ ['}']) :=
  ⟨by decide, by decide,
    claim_c6_theorem jsonParse ("```json\n".toList) ("\"questions\": []".toList)
      ("\n```\nEnjoy your quiz!".toList) (by decide) (by decide)⟩
